import Mathlib

/-!
Verification development for the chain-merging core of the `cstrd` repository
(`lib/merge_chains.py`).

The Python source is shallowly embedded below.  Conventions of the embedding:

* Python `float` angles and radial distances are modelled as `ℚ`: every angle
  handled by the code is one of `Nr` rational grid values `k * (360 / Nr)`,
  and all comparisons appearing in the claims are order comparisons.
* Mutation of the shared `SystemStatus` aggregate is modelled by explicit
  state passing.  Python aliasing (the same `Chain` / `Node` objects being
  reachable from `state.l_ch_s`, `state.l_nodes_s` and local variables) is
  modelled by identifying a chain with its unique integer `id` and a node with
  its value: an in-place mutation of an object becomes a rewrite of every
  occurrence of that value in the state, which coincides with the Python
  behaviour under the ownership invariants stated in the theorems.
* Code that can raise (`next` on an empty generator, `list.index`,
  NumPy fancy indexing out of range, `assert`) returns `Option`; `none` is the
  raising branch.
* Functions implemented in modules of the repository that are not part of the
  merging core (`lib/chain.py`, `lib/interpolation_nodes.py`,
  `lib/basic_properties.py`) are external collaborators; where their exact
  behaviour matters they are either modelled from the specification (marked
  `Modelled from the spec:`) or taken as parameters (the `Geom` record).
-/

namespace CSTRD

/-- Modelled from the spec: `TypeChains` from `lib/chain.py` — a chain is
either a normal fragment or the special full-circle border chain. -/
inductive TypeChains where
  | normal : TypeChains
  | border : TypeChains
deriving DecidableEq, Repr

/-- Endpoint labels of a chain (`ch.EndPoints` from `lib/chain.py`):
`A` is the angularly first node, `B` the angularly last one. -/
inductive EndPoints where
  | A : EndPoints
  | B : EndPoints
deriving DecidableEq, Repr

/-- Location of a candidate chain relative to the support chain
(`ch.ChainLocation` from `lib/chain.py`). -/
inductive ChainLocation where
  | inwards : ChainLocation
  | outwards : ChainLocation
deriving DecidableEq, Repr

/-- Modelled from the spec: a `Node` from `lib/chain.py` is one boundary
sample at a given ray angle and radial distance from the center; it carries
the identifier of its owning chain.  Angle and radial distance are fixed once
created, chain ownership is reassignable. -/
structure Node where
  angle : ℚ
  radial_distance : ℚ
  chain_id : ℕ
deriving DecidableEq, Repr

instance : Inhabited Node := ⟨⟨0, 0, 0⟩⟩

/-! ### Stable sorting helpers

Python's `list.sort` / `sorted` are stable.  The embeddings below use a stable
insertion sort parameterised by a `ℚ`-valued (ascending) or `ℕ`-valued
(descending) key. -/

/-- Insert `x` into `l` before the first element whose key is strictly
greater; elements with an equal key keep their original relative order. -/
def insertAscBy (key : α → ℚ) (x : α) : List α → List α
  | [] => [x]
  | y :: ys => if key x ≤ key y then x :: y :: ys else y :: insertAscBy key x ys

/-- Stable ascending sort by a `ℚ` key (model of Python `sort`). -/
def sortAscBy (key : α → ℚ) (l : List α) : List α :=
  l.foldr (insertAscBy key) []

/-- Insert for the stable descending sort by a `ℕ` key. -/
def insertDescBy (key : α → ℕ) (x : α) : List α → List α
  | [] => [x]
  | y :: ys => if key y ≤ key x then x :: y :: ys else y :: insertDescBy key x ys

/-- Stable descending sort by a `ℕ` key (model of Python
`sort(key=..., reverse=True)`). -/
def sortDescBy (key : α → ℕ) (l : List α) : List α :=
  l.foldr (insertDescBy key) []

/-! ### Chain model -/

/-- Modelled from the spec: a `Chain` from `lib/chain.py` is an ordered
sequence of nodes covering a subset of the `Nr` ray angles, with a unique
integer `id` (dense, renumbered on deletion), the shared ray count `Nr`, a
`type` (normal or border) and four neighbour references.  The spec states the
neighbour references are "non-owning identifiers of the nearest chain visible
from each endpoint"; following it, the Python attributes `A_outward`,
`A_inward`, `B_outward`, `B_inward` (which hold aliased chain objects or
`None`) are modelled as optional chain ids. -/
structure Chain where
  id : ℕ
  l_nodes : List Node
  Nr : ℕ
  typ : TypeChains
  A_outward : Option ℕ := none
  A_inward : Option ℕ := none
  B_outward : Option ℕ := none
  B_inward : Option ℕ := none
deriving DecidableEq, Repr

instance : Inhabited Chain := ⟨⟨0, [], 0, TypeChains.normal, none, none, none, none⟩⟩

/-- Modelled from the spec: `chain.size` is the node count of the chain. -/
def Chain.size (c : Chain) : ℕ := c.l_nodes.length

/-- Modelled from the spec: `chain.extA` is the angularly first node of the
chain (invariant 2 of the spec's data model).  The node list of the model is
kept sorted by angle, so this is its head.  Reading the endpoint of an empty
chain is undefined behaviour in the source; the model returns the default
node. -/
def Chain.extA (c : Chain) : Node := c.l_nodes.headD default

/-- Modelled from the spec: `chain.extB` is the angularly last node of the
chain. -/
def Chain.extB (c : Chain) : Node := c.l_nodes.getLastD default

/-- Modelled from the spec: `chain.get_dot_angle_values()` from
`lib/chain.py` — the set of sampled angles of the chain, as the list of its
nodes' angles. -/
def Chain.get_dot_angle_values (c : Chain) : List ℚ := c.l_nodes.map Node.angle

/-- Modelled from the spec: `chain.change_id(new_id)` from `lib/chain.py`.
Ids of chains are renumbered on deletion and "each node belongs to exactly
one chain" / "carries the identifier of its owning chain" must keep holding,
so changing a chain's id rewrites the ownership id of every node it owns. -/
def Chain.change_id (c : Chain) (new_id : ℕ) : Chain :=
  { c with id := new_id,
           l_nodes := c.l_nodes.map (fun n => { n with chain_id := new_id }) }

/-- Modelled from the spec: `chain.add_nodes_list(l)` from `lib/chain.py`
appends the given nodes to the chain, restoring the angular order of the node
list (so that `extA`/`extB` "always reflect the current angularly-first/last
node"), and reports whether an endpoint changed. -/
def Chain.add_nodes_list (c : Chain) (ns : List Node) : Chain × Bool :=
  let c' := { c with l_nodes := sortAscBy Node.angle (c.l_nodes ++ ns) }
  (c', decide (c'.extA ≠ c.extA ∨ c'.extB ≠ c.extB))

/-- Modelled from the spec: `ch.get_chain_from_list_by_id` from
`lib/chain.py` — id-based lookup utility. -/
def get_chain_from_list_by_id (chain_list : List Chain) (chain_id : ℕ) :
    Option Chain :=
  chain_list.find? (fun c => c.id = chain_id)

/-- Modelled from the spec: `ch.get_chains_within_angle` from `lib/chain.py`
— the chains whose angular domain contains the given ray angle. -/
def get_chains_within_angle (angle : ℚ) (chain_list : List Chain) : List Chain :=
  chain_list.filter (fun c => c.l_nodes.any (fun n => n.angle = angle))

/-- Modelled from the spec:
`ch.get_closest_dots_to_angle_on_radial_direction_sorted_by_ascending_distance_to_center`
from `lib/chain.py` — on the ray of the given angle, the sample nodes of the
given chains, sorted ascending by radial distance from the center. -/
def get_closest_dots_to_angle_sorted (chain_list : List Chain) (angle : ℚ) :
    List Node :=
  sortAscBy Node.radial_distance
    ((chain_list.map (fun c => c.l_nodes.filter (fun n => n.angle = angle))).flatten)

/-! ### Intersection matrix -/

/-- The intersection matrix `M`: a square 0/1 matrix over chain ids.
`dim` is the Python array dimension; entries are read through the total
function `f` (reads the source performs out of range raise `IndexError`, and
the corresponding operations below return `none` in that case). -/
structure IntersectionMatrix where
  dim : ℕ
  f : ℕ → ℕ → Bool

/-- Symmetry of the intersection matrix on its actual index range. -/
def IntersectionMatrix.IsSymm (M : IntersectionMatrix) : Prop :=
  ∀ i < M.dim, ∀ j < M.dim, M.f i j = M.f j i

/-- The diagonal of the intersection matrix is all 1. -/
def IntersectionMatrix.DiagOne (M : IntersectionMatrix) : Prop :=
  ∀ i < M.dim, M.f i i = true

instance (M : IntersectionMatrix) : Decidable M.IsSymm := by
  unfold IntersectionMatrix.IsSymm; infer_instance

instance (M : IntersectionMatrix) : Decidable M.DiagOne := by
  unfold IntersectionMatrix.DiagOne; infer_instance

/-- Index remapping of `np.delete(·, k, axis)`: entry `i` of the result reads
entry `i` (below `k`) or `i + 1` (at or above `k`) of the original. -/
def skipIdx (k i : ℕ) : ℕ := if i < k then i else i + 1

/-- The grid of ray angles `np.arange(0, 360, 360 / Nr)`. -/
def gridAngles (Nr : ℕ) : List ℚ :=
  (List.range Nr).map (fun (k : ℕ) => (k : ℚ) * (360 / (Nr : ℚ)))

/-- Embedding of `compute_intersection_matrix` (merge_chains.py:968).
`M = np.eye(np.max(chains_id) + 1)`, then for every grid angle all pairs of
chain ids having a node at that angle are set to 1.  `np.max` of an empty
array raises `ValueError`, modelled by `none`.  The `IndexError` re-raise in
the source is unreachable because every index is a `chain_id` of a node and
the dimension exceeds their maximum. -/
def compute_intersection_matrix (nodes_list : List Node) (Nr : ℕ) :
    Option IntersectionMatrix :=
  match nodes_list with
  | [] => none
  | n₀ :: rest =>
    let dim := ((n₀ :: rest).map Node.chain_id).foldl max 0 + 1
    some ⟨dim, fun i j =>
      i == j || (gridAngles Nr).any (fun a =>
        nodes_list.any (fun n => n.chain_id == i && n.angle == a) &&
        nodes_list.any (fun n => n.chain_id == j && n.angle == a))⟩

/-! ### System state -/

/-- Embedding of the mutable aggregate `SystemStatus` (merge_chains.py:115).
Only the fields read or written by the embedded operations are carried;
debug/visualisation fields (`img`, `path`, `counter`, ...) are omitted as
pure I/O. -/
structure SystemStatus where
  l_ch_s : List Chain
  l_nodes_s : List Node
  M : IntersectionMatrix
  Nr : ℕ
  th_radial_tolerance : ℚ := 1/10
  th_distribution_size : ℚ := 2
  th_regular_derivative : ℚ := 3/2
  neighbourhood_size : ℚ := 45
  derivative_from_center : Bool := false
  check_overlapping : Bool := true
  next_chain_index : ℕ := 0
  iterations_since_last_change : ℕ := 0
  size_l_chain_init : ℕ := 0

/-! ### External geometry/statistics collaborators -/

/-- Modelled from the spec: the geometry/statistics collaborator consumed by
the core (spec §6): angular and Euclidean distance queries, the
interpolation-domain computation, the statistical similarity test, the
node-interpolation routine and the overlap guard.  These live in
`lib/chain.py`, `lib/basic_properties.py` and `lib/interpolation_nodes.py`,
which are outside the merging core; the embedding is parameterised by them. -/
structure Geom where
  euclidean_distance_between_nodes : Node → Node → ℚ
  angular_distance_between_chains : Chain → Chain → EndPoints → ℚ
  minimum_euclidean_distance_between_chains_endpoints : Chain → Chain → ℚ
  compute_interpolation_domain : EndPoints → Node → Node → ℕ → List ℚ
  similarity_conditions : SystemStatus → Chain → Chain → Chain → EndPoints → Bool × ℚ
  interpolate_nodes_given_chains :
    Option Chain → Node → Node → EndPoints → Chain → Option Chain → List Node
  exist_chain_overlapping :
    List Chain → List Node → Chain → Chain → EndPoints → Chain → Bool

/-! ### Closest-chain selection (merge_chains.py:757 and 900) -/

/-- Embedding of `distance_between_border` (merge_chains.py:900): for
endpoint `A`, the Euclidean distance between `chain_1.extA` and
`chain_2.extB`; for endpoint `B`, the Euclidean distance between
`chain_2.extB` and `chain_2.extA`. -/
def distance_between_border (g : Geom) (chain_1 chain_2 : Chain)
    (border_1 : EndPoints) : ℚ :=
  let node1 := if border_1 = EndPoints.A then chain_1.extA else chain_2.extB
  let node2 := if border_1 = EndPoints.A then chain_2.extB else chain_2.extA
  g.euclidean_distance_between_nodes node1 node2

/-- Embedding of `select_closest_chain` (merge_chains.py:757).  A missing
neighbour contributes distance `-1`; both missing yields no selection; the
`A` side wins ties (`d_a >= d_b`).  The final `else: raise` of the source is
unreachable (the three guards are exhaustive) and has no counterpart here. -/
def select_closest_chain (g : Geom) (chain : Chain)
    (a_neighbour_chain b_neighbour_chain : Option Chain) :
    Option Chain × Option EndPoints :=
  let d_a := match a_neighbour_chain with
    | some a => distance_between_border g chain a EndPoints.A
    | none => -1
  let d_b := match b_neighbour_chain with
    | some b => distance_between_border g chain b EndPoints.B
    | none => -1
  if d_a = -1 ∧ d_b = -1 then (none, none)
  else if d_a ≥ d_b then (a_neighbour_chain, some EndPoints.A)
  else (b_neighbour_chain, some EndPoints.B)

/-! ### Candidate filtering by the intersection matrix (merge_chains.py:711) -/

/-- Embedding of `find_non_intersection` (merge_chains.py:711): keep the
candidate chains whose id is not among `np.where(M[ch_j.id] == 1)[0]`.
`np.where` only produces indices below the dimension, hence the explicit
bound. -/
def find_non_intersection (M : IntersectionMatrix) (l_candidates_chi : List Chain)
    (ch_j : Chain) : List Chain :=
  l_candidates_chi.filter (fun cad => !(decide (cad.id < M.dim) && M.f ch_j.id cad.id))

/-- Embedding of `get_intersection_chains` (merge_chains.py:724): the
candidate chains whose id is among `np.where(M[ch_j.id] == 1)[0]`. -/
def get_intersection_chains (M : IntersectionMatrix) (l_candidates_chi : List Chain)
    (ch_j : Chain) : List Chain :=
  l_candidates_chi.filter (fun cad => decide (cad.id < M.dim) && M.f ch_j.id cad.id)

/-! ### Connectivity goodness (merge_chains.py:848 and 865) -/

/-- Embedding of `check_endpoints` (merge_chains.py:848): the interpolation
domain between `ch_j`'s endpoint and the candidate's opposite endpoint must be
fully contained in the support chain's angular domain.  `np.intersect1d`
returns the deduplicated common values; the check compares its length with
the length of the interpolation domain. -/
def check_endpoints (g : Geom) (support_chain ch_j candidate_chain : Chain)
    (endpoint : EndPoints) : Bool :=
  let support_chain_angular_domain := support_chain.get_dot_angle_values
  let ext_cad_1 := if endpoint = EndPoints.A then ch_j.extA else ch_j.extB
  let ext_cad_2 := if endpoint = EndPoints.A then candidate_chain.extB else candidate_chain.extA
  let interpolation_domain :=
    g.compute_interpolation_domain endpoint ext_cad_1 ext_cad_2 support_chain.Nr
  let intersection :=
    interpolation_domain.dedup.filter (fun a => support_chain_angular_domain.contains a)
  intersection.length == interpolation_domain.length

/-- Embedding of `connectivity_goodness_condition` (merge_chains.py:865):
size criterion first (`(False, -1)` if the merged size would exceed `Nr`),
then the endpoint/interpolation-domain check, then the external similarity
conditions. -/
def connectivity_goodness_condition (g : Geom) (state : SystemStatus)
    (ch_j candidate_chain ch_i : Chain) (endpoint : EndPoints) : Bool × ℚ :=
  if ch_j.size + candidate_chain.size > ch_j.Nr then (false, -1)
  else if !(check_endpoints g ch_i ch_j candidate_chain endpoint) then (false, -1)
  else g.similarity_conditions state ch_i ch_j candidate_chain endpoint

/-! ### Closest-chain search (merge_chains.py:393 to 535 and 787 to 845) -/

/-- Embedding of the helper class `Set` (merge_chains.py:787): a candidate
chain paired with a distance used for sorting. -/
structure Set where
  distance : ℚ
  cad : Chain
deriving DecidableEq, Repr

/-- Embedding of `sort_chains_in_neighbourhood` (merge_chains.py:829): group
the candidates by their (unique, ascending — `np.unique`) angular distances
and sort each group by minimum Euclidean distance of endpoints to `ch_j`. -/
def sort_chains_in_neighbourhood (g : Geom) (chains_in_neighbourhood : List Set)
    (ch_j : Chain) : List Set :=
  let unique_angular_distances :=
    (sortAscBy id (chains_in_neighbourhood.map Set.distance)).dedup
  unique_angular_distances.flatMap (fun d =>
    let chains_same_angular_distance :=
      (chains_in_neighbourhood.filter (fun conj => conj.distance = d)).map Set.cad
    let euclidean_distance_set := chains_same_angular_distance.map (fun ch_d =>
      Set.mk (g.minimum_euclidean_distance_between_chains_endpoints ch_d ch_j) ch_d)
    (sortAscBy Set.distance euclidean_distance_set).map (fun st => Set.mk d st.cad))

/-- Embedding of `get_chains_in_neighbourhood` (merge_chains.py:793): filter
the non-intersecting candidates to those within the angular neighbourhood of
`ch_j`'s endpoint, restrict by the directional-consistency pointer condition
for the endpoint/location combination, and sort. -/
def get_chains_in_neighbourhood (g : Geom) (neighbourhood_size : ℚ)
    (l_no_intersection_j : List Chain) (ch_j ch_i : Chain) (endpoint : EndPoints)
    (location : ChainLocation) : List Set :=
  let l_chains_in_neighbourhood := (l_no_intersection_j.filterMap (fun cand_chain =>
    let angular_distance := g.angular_distance_between_chains ch_j cand_chain endpoint
    if angular_distance ≤ neighbourhood_size ∧ cand_chain.id ≠ ch_j.id then
      some (Set.mk angular_distance cand_chain)
    else none))
  let l_chains_in_neighbourhood :=
    if endpoint = EndPoints.A ∧ location = ChainLocation.inwards then
      l_chains_in_neighbourhood.filter (fun e => e.cad.B_outward = some ch_i.id)
    else if endpoint = EndPoints.A ∧ location = ChainLocation.outwards then
      l_chains_in_neighbourhood.filter (fun e => e.cad.B_inward = some ch_i.id)
    else if endpoint = EndPoints.B ∧ location = ChainLocation.inwards then
      l_chains_in_neighbourhood.filter (fun e => e.cad.A_outward = some ch_i.id)
    else
      l_chains_in_neighbourhood.filter (fun e => e.cad.A_inward = some ch_i.id)
  sort_chains_in_neighbourhood g l_chains_in_neighbourhood ch_j

/-- Embedding of `intersection_chains` (merge_chains.py:393): the chains of
the sorted neighbourhood that intersect the candidate chain (other than the
candidate itself). -/
def intersection_chains (M : IntersectionMatrix) (candidate_chain : Chain)
    (l_sorted_chains_in_neighbourhood : List Set) : List Chain :=
  (l_sorted_chains_in_neighbourhood.filter (fun st =>
    decide (st.cad.id < M.dim) && M.f candidate_chain.id st.cad.id &&
      decide (candidate_chain.id ≠ st.cad.id))).map Set.cad

/-- Embedding of `get_all_chain_in_subset_that_satisfy_condition`
(merge_chains.py:401): the candidate itself (with its radial distance)
followed by every intersecting chain passing the connectivity goodness
condition with `ch_j`. -/
def get_all_chain_in_subset_that_satisfy_condition (g : Geom)
    (state : SystemStatus) (ch_j ch_i : Chain) (endpoint : EndPoints)
    (radial_distance : ℚ) (candidate_chain : Chain)
    (l_intersections_candidate : List Chain) : List Set :=
  Set.mk radial_distance candidate_chain ::
    l_intersections_candidate.filterMap (fun chain_inter =>
      let pr := connectivity_goodness_condition g state ch_j chain_inter ch_i endpoint
      if pr.1 then some (Set.mk pr.2 chain_inter) else none)

/-- Embedding of
`get_the_closest_chain_by_radial_distance_that_does_not_intersect`
(merge_chains.py:412): among the candidate and the admissible chains
intersecting it, the one with the smallest tie-break distance.  The sorted
list is non-empty by construction (it contains the candidate), so the `[]`
branch is unreachable. -/
def get_the_closest_chain_by_radial_distance_that_does_not_intersect (g : Geom)
    (state : SystemStatus) (ch_j ch_i : Chain) (endpoint : EndPoints)
    (candidate_chain_radial_distance : ℚ) (candidate_chain : Chain)
    (M : IntersectionMatrix) (l_sorted_chains_in_neighbourhood : List Set) : Chain :=
  let l_intersections_candidate :=
    intersection_chains M candidate_chain l_sorted_chains_in_neighbourhood
  let l_intersections_candidate_set :=
    get_all_chain_in_subset_that_satisfy_condition g state ch_j ch_i endpoint
      candidate_chain_radial_distance candidate_chain l_intersections_candidate
  match sortAscBy Set.distance l_intersections_candidate_set with
  | [] => candidate_chain
  | st :: _ => st.cad

/-- The `while` loop of `get_closest_chain` (merge_chains.py:470): walk the
sorted neighbourhood until a candidate passes the connectivity goodness
condition, then refine it through the intersecting-chain displacement. -/
def get_closest_chain_loop (g : Geom) (state : SystemStatus) (ch_j ch_i : Chain)
    (endpoint : EndPoints) (M : IntersectionMatrix)
    (l_sorted_chains_in_neighbourhood : List Set) : List Set → Option Chain
  | [] => none
  | st :: rest =>
    let pr := connectivity_goodness_condition g state ch_j st.cad ch_i endpoint
    if pr.1 then
      some (get_the_closest_chain_by_radial_distance_that_does_not_intersect g
        state ch_j ch_i endpoint pr.2 st.cad M l_sorted_chains_in_neighbourhood)
    else
      get_closest_chain_loop g state ch_j ch_i endpoint M
        l_sorted_chains_in_neighbourhood rest

/-- Embedding of `get_closest_chain` (merge_chains.py:446). -/
def get_closest_chain (g : Geom) (state : SystemStatus) (ch_j : Chain)
    (l_no_intersection_j : List Chain) (ch_i : Chain) (location : ChainLocation)
    (endpoint : EndPoints) (M : IntersectionMatrix) : Option Chain :=
  let l_sorted_chains_in_neighbourhood :=
    get_chains_in_neighbourhood g state.neighbourhood_size l_no_intersection_j
      ch_j ch_i endpoint location
  get_closest_chain_loop g state ch_j ch_i endpoint M
    l_sorted_chains_in_neighbourhood l_sorted_chains_in_neighbourhood

/-- Embedding of `get_closest_chain_logic` (merge_chains.py:497): forward
search from `ch_j`'s endpoint; when `symmetric` is set, repeat the search from
the candidate's side with the flipped endpoint label, reject unless it finds
exactly `ch_j`, and re-reject if the combined size would exceed `Nr`. -/
def get_closest_chain_logic (g : Geom) (state : SystemStatus) (ch_j : Chain)
    (l_candidates_chi l_no_intersection_j : List Chain) (ch_i : Chain)
    (location : ChainLocation) (endpoint : EndPoints) (symmetric : Bool) :
    Option Chain :=
  match get_closest_chain g state ch_j l_no_intersection_j ch_i location endpoint
      state.M with
  | none => none
  | some ch_k =>
    if !symmetric then some ch_k
    else
      let l_no_intersection_k := find_non_intersection state.M l_candidates_chi ch_k
      let endpoint_k :=
        if endpoint = EndPoints.B then EndPoints.A else EndPoints.B
      let symmetric_chain := get_closest_chain g state ch_k l_no_intersection_k
        ch_i location endpoint_k state.M
      if symmetric_chain ≠ some ch_j then none
      else if ch_k.size + ch_j.size > ch_k.Nr then none
      else some ch_k

/-- Embedding of `find_closest` (merge_chains.py:306): symmetric search on
endpoint `B`, then on endpoint `A`, then selection of the candidate with the
larger tie-break distance.  The `debugging_chains` calls are pure I/O and are
omitted. -/
def find_closest (g : Geom) (state : SystemStatus) (ch_j : Chain)
    (l_candidates_chi l_no_intersection_j : List Chain) (ch_i : Chain)
    (location : ChainLocation) (symmetric_check : Bool := true) :
    Option Chain × Option EndPoints :=
  let ch_k_b := get_closest_chain_logic g state ch_j l_candidates_chi
    l_no_intersection_j ch_i location EndPoints.B symmetric_check
  let ch_k_a := get_closest_chain_logic g state ch_j l_candidates_chi
    l_no_intersection_j ch_i location EndPoints.A symmetric_check
  select_closest_chain g ch_j ch_k_a ch_k_b

/-! ### Support-chain selection (merge_chains.py:168 and 225) -/

/-- Embedding of `SystemStatus.get_next_chain_index_in_list`
(merge_chains.py:225): the index after the support chain, modulo the list
length.  `list.index` raises `ValueError` when the chain is absent, hence the
`Option`. -/
def get_next_chain_index_in_list (chains_list : List Chain) (support_chain : Chain) :
    Option ℕ :=
  (chains_list.findIdx? (fun c => c = support_chain)).map
    (fun i => (i + 1) % chains_list.length)

/-- The cursor-update phase of `SystemStatus.find_support_chain`
(merge_chains.py:176 to 195).  On the very first call (`ch_i = None`) the
cursor restarts at 0; after an iteration that merged chains the chain list is
re-sorted by descending size and the cursor jumps to the longest chain of the
previous round if it beats the previous support chain; otherwise the cursor
advances past the previous support chain and the no-change counter is
incremented.  `none` models the `ValueError` of `list.index` on a chain that
is not in the list. -/
def find_support_chain_cursor (s : SystemStatus) (ch_i : Option Chain)
    (l_s_outward l_s_inward : List Chain) : Option SystemStatus :=
  match ch_i with
  | none => some { s with next_chain_index := 0 }
  | some ci =>
    let chain_size_at_the_end_of_iteration := s.l_ch_s.length
    if s.size_l_chain_init > chain_size_at_the_end_of_iteration then
      let s := { s with iterations_since_last_change := 0,
                        l_ch_s := sortDescBy Chain.size s.l_ch_s }
      let l_current_iteration :=
        sortDescBy Chain.size (ci :: (l_s_outward ++ l_s_inward))
      let longest_chain := l_current_iteration.headD ci
      if longest_chain.id = ci.id then
        (get_next_chain_index_in_list s.l_ch_s ci).map
          (fun i => { s with next_chain_index := i })
      else
        (s.l_ch_s.findIdx? (fun c => c = longest_chain)).map
          (fun i => { s with next_chain_index := i })
    else
      (get_next_chain_index_in_list s.l_ch_s ci).map (fun i =>
        { s with next_chain_index := i,
                 iterations_since_last_change :=
                   s.iterations_since_last_change + 1 })

/-- The exit phase of `SystemStatus.find_support_chain`
(merge_chains.py:197 to 205): terminal `none` once the no-change counter has
reached the chain count, otherwise the chain under the cursor is returned and
the pre-iteration chain count is recorded. -/
def find_support_chain_exit (s : SystemStatus) :
    Option (SystemStatus × Option Chain) :=
  if s.iterations_since_last_change ≥ s.l_ch_s.length then some (s, none)
  else
    match s.l_ch_s[s.next_chain_index]? with
    | none => none
    | some c => some ({ s with size_l_chain_init := s.l_ch_s.length }, some c)

/-- Embedding of `SystemStatus.find_support_chain` (merge_chains.py:168):
empty-list early return, cursor update, then the exit check. -/
def find_support_chain (s : SystemStatus) (ch_i : Option Chain)
    (l_s_outward l_s_inward : List Chain) :
    Option (SystemStatus × Option Chain) :=
  if s.l_ch_s.length = 0 then some (s, none)
  else
    match find_support_chain_cursor s ch_i l_s_outward l_s_inward with
    | none => none
    | some s => find_support_chain_exit s

/-- Consecutive `find_support_chain` calls that observe no structural change:
the state is passed along unmodified between calls (the driver performed no
merge), the returned chain is fed back as the previous support chain, and the
neighbour lists are irrelevant (they are only read in the merged branch).
`k` bounds the number of additional calls after the first. -/
def no_change_calls : ℕ → SystemStatus → Chain →
    Option (SystemStatus × Option Chain)
  | 0, s, ci => find_support_chain s (some ci) [] []
  | k + 1, s, ci =>
    match find_support_chain s (some ci) [] [] with
    | some (s', some c') => no_change_calls k s' c'
    | other => other

/-! ### Merge executor (merge_chains.py:537 to 681)

Python mutates `Chain` and `Node` objects in place; the same objects are
aliased from `state.l_ch_s`, `state.l_nodes_s`, the chains' own `l_nodes`
lists and local variables.  The embedding identifies a chain by its unique
`id` and rewrites every aliased occurrence explicitly; the rewrites coincide
with the source's in-place mutations under the ownership invariant "each node
belongs to exactly one chain" (spec §3, invariant 1), which the claims'
theorems assume. -/

/-- In-place mutation of the chain object with the given id, as seen through
the live chain list. -/
def update_chain_in_list (l : List Chain) (cid : ℕ) (f : Chain → Chain) :
    List Chain :=
  l.map (fun c => if c.id = cid then f c else c)

/-- Embedding of `move_nodes_from_one_chain_to_another` (merge_chains.py:537):
every node of `ch_k` gets `ch_j`'s id, and `ch_j` absorbs them.  The node
objects of `ch_k` are aliased in `state.l_nodes_s`, which therefore sees the
ownership rewrite. -/
def move_nodes_from_one_chain_to_another (s : SystemStatus) (ch_j ch_k : Chain) :
    SystemStatus × Bool :=
  let moved := ch_k.l_nodes.map (fun n => { n with chain_id := ch_j.id })
  let change_border := (ch_j.add_nodes_list moved).2
  ({ s with
      l_ch_s := s.l_ch_s.map (fun c =>
        if c.id = ch_k.id then { c with l_nodes := moved }
        else if c.id = ch_j.id then (c.add_nodes_list moved).1 else c),
      l_nodes_s := s.l_nodes_s.map (fun n =>
        if n.chain_id = ch_k.id then { n with chain_id := ch_j.id } else n) },
   change_border)

/-- Embedding of `merge_two_chains` (merge_chains.py:587).  Lines 1 to 7 of
Algorithm 4 (endpoint selection and the call to the external
`interpolate_nodes_given_chains`) are externalized: `interpolated` is the
node list that call produced.  `ch_j` first absorbs the interpolated nodes,
then the nodes of `ch_k` are moved over. -/
def merge_two_chains (s : SystemStatus) (ch_j ch_k : Chain) (endpoint : EndPoints)
    (interpolated : List Node) : SystemStatus :=
  let _ := endpoint
  let l1 := update_chain_in_list s.l_ch_s ch_j.id
    (fun c => (c.add_nodes_list interpolated).1)
  let s1 := { s with l_ch_s := l1 }
  (move_nodes_from_one_chain_to_another s1 ((ch_j.add_nodes_list interpolated).1)
    ch_k).1

/-- Embedding of `SystemStatus._chains_id_over_radial_direction`
(merge_chains.py:231). -/
def chains_id_over_radial_direction (s : SystemStatus) (angle : ℚ) :
    List ℕ × List Chain :=
  let chains_in_radial_direction := get_chains_within_angle angle s.l_ch_s
  (chains_in_radial_direction.map Chain.id, chains_in_radial_direction)

/-- Embedding of `update_intersection_matrix_in_radial_direction`
(merge_chains.py:635): mark `ch_j` as intersecting every chain that has a
node on the new node's ray, symmetrically.  NumPy fancy indexing raises
`IndexError` when an index is out of range (`none`). -/
def update_intersection_matrix_in_radial_direction (s : SystemStatus)
    (ch_j : Chain) (new_node : Node) : Option (SystemStatus × List Chain) :=
  let p := chains_id_over_radial_direction s new_node.angle
  if ch_j.id < s.M.dim ∧ ∀ i ∈ p.1, i < s.M.dim then
    some ({ s with M := ⟨s.M.dim, fun i j =>
      if (i = ch_j.id ∧ j ∈ p.1) ∨ (i ∈ p.1 ∧ j = ch_j.id) then true
      else s.M.f i j⟩ }, p.2)
  else none

/-- The up-dot block of
`update_visibility_chain_pointers_in_radial_direction`
(merge_chains.py:653 to 659): the chain owning the sample just above the new
node gets its matching inward endpoint pointer redirected to `ch_j`.  A
failed id lookup would dereference `None` in the source (`AttributeError`),
modelled by `none`. -/
def redirect_inward_pointer (s : SystemStatus)
    (chains_over_radial_direction : List Chain) (up_dot? : Option Node)
    (ch_j : Chain) : Option SystemStatus :=
  match up_dot? with
  | none => some s
  | some up_dot =>
    match get_chain_from_list_by_id chains_over_radial_direction
        up_dot.chain_id with
    | none => none
    | some up_chain =>
      if up_dot = up_chain.extA then
        let l' := update_chain_in_list s.l_ch_s up_chain.id
          (fun c => { c with A_inward := some ch_j.id })
        some { s with l_ch_s := l' }
      else if up_dot = up_chain.extB then
        let l' := update_chain_in_list s.l_ch_s up_chain.id
          (fun c => { c with B_inward := some ch_j.id })
        some { s with l_ch_s := l' }
      else some s

/-- The down-dot block of
`update_visibility_chain_pointers_in_radial_direction`
(merge_chains.py:661 to 668): the chain owning the sample just below the new
node gets its matching outward endpoint pointer redirected to `ch_j`. -/
def redirect_outward_pointer (s : SystemStatus)
    (chains_over_radial_direction : List Chain) (down_dot? : Option Node)
    (ch_j : Chain) : Option SystemStatus :=
  match down_dot? with
  | none => some s
  | some down_dot =>
    match get_chain_from_list_by_id chains_over_radial_direction
        down_dot.chain_id with
    | none => none
    | some down_chain =>
      if down_dot = down_chain.extA then
        let l' := update_chain_in_list s.l_ch_s down_chain.id
          (fun c => { c with A_outward := some ch_j.id })
        some { s with l_ch_s := l' }
      else if down_dot = down_chain.extB then
        let l' := update_chain_in_list s.l_ch_s down_chain.id
          (fun c => { c with B_outward := some ch_j.id })
        some { s with l_ch_s := l' }
      else some s

/-- Embedding of `update_visibility_chain_pointers_in_radial_direction`
(merge_chains.py:646): on the new node's ray, the samples of the given
chains together with the new node are sorted by radial distance, and the
neighbours just above and just below the new node get their endpoint
pointers redirected to `ch_j`. -/
def update_visibility_chain_pointers_in_radial_direction (s : SystemStatus)
    (chains_over_radial_direction : List Chain) (new_node : Node)
    (ch_j : Chain) : Option SystemStatus :=
  let dots_over_direction := sortAscBy Node.radial_distance
    ((chains_over_radial_direction.map
        (fun c => c.l_nodes.filter (fun d => d.angle = new_node.angle))).flatten
      ++ [new_node])
  match dots_over_direction.findIdx? (fun d => d = new_node) with
  | none => none
  | some idx_new_dot =>
    match redirect_inward_pointer s chains_over_radial_direction
        dots_over_direction[idx_new_dot + 1]? ch_j with
    | none => none
    | some s =>
      if 0 < idx_new_dot then
        redirect_outward_pointer s chains_over_radial_direction
          dots_over_direction[idx_new_dot - 1]? ch_j
      else some s

/-- Embedding of `get_dots_in_radial_direction` (merge_chains.py:927): the
samples on the endpoint's ray sorted by distance to the center, and the index
of the endpoint's own chain among them (`none` models the `-1` / empty-list
result). -/
def get_dots_in_radial_direction (node_direction : Node)
    (chain_list : List Chain) : Option ℕ × List Node :=
  let chains_in_radial_direction :=
    get_chains_within_angle node_direction.angle chain_list
  let nodes_over_ray :=
    get_closest_dots_to_angle_sorted chains_in_radial_direction
      node_direction.angle
  match nodes_over_ray.findIdx? (fun node => node.chain_id = node_direction.chain_id) with
  | some i => (some i, nodes_over_ray)
  | none => (none, [])

/-- Embedding of `get_inward_and_outward_visible_chains`
(merge_chains.py:908): the chains owning the ray samples immediately closer
to and farther from the center than the endpoint. -/
def get_inward_and_outward_visible_chains (chain_list : List Chain)
    (chain : Chain) (endpoint : EndPoints) :
    Option Chain × Option Chain × Node :=
  let node_direction := if endpoint = EndPoints.A then chain.extA else chain.extB
  match get_dots_in_radial_direction node_direction chain_list with
  | (none, _) => (none, none, node_direction)
  | (some dot_chain_index, dots_over_ray_direction) =>
    let inward_chain :=
      if 0 < dot_chain_index then
        (dots_over_ray_direction[dot_chain_index - 1]?).bind
          (fun down_dot => get_chain_from_list_by_id chain_list down_dot.chain_id)
      else none
    let outward_chain :=
      if dot_chain_index < dots_over_ray_direction.length - 1 then
        (dots_over_ray_direction[dot_chain_index + 1]?).bind
          (fun up_dot => get_chain_from_list_by_id chain_list up_dot.chain_id)
      else none
    (inward_chain, outward_chain, node_direction)

/-- Embedding of `SystemStatus.update_chain_neighbourhood`
(merge_chains.py:209): recompute the four endpoint neighbour references of
each given chain (given by id; the Python argument list aliases state
objects). -/
def update_chain_neighbourhood (s : SystemStatus) (ids : List ℕ) : SystemStatus :=
  ids.foldl (fun s pid =>
    match get_chain_from_list_by_id s.l_ch_s pid with
    | none => s
    | some chain_p =>
      let ra := get_inward_and_outward_visible_chains s.l_ch_s chain_p EndPoints.A
      let la := update_chain_in_list s.l_ch_s pid (fun c =>
        { c with A_outward := ra.2.1.map Chain.id, A_inward := ra.1.map Chain.id })
      let s := { s with l_ch_s := la }
      let rb := get_inward_and_outward_visible_chains s.l_ch_s chain_p EndPoints.B
      let lb := update_chain_in_list s.l_ch_s pid (fun c =>
        { c with B_outward := rb.2.1.map Chain.id, B_inward := rb.1.map Chain.id })
      { s with l_ch_s := lb }) s

/-- The per-node body of `add_interpolated_nodes_to_system`
(merge_chains.py:671): assert freshness (`AssertionError` is `none`),
register the node, update the matrix on its ray, repair the visibility
pointers. -/
def add_interpolated_nodes_loop (ch_j : Chain) :
    SystemStatus → List Node → Option SystemStatus
  | s, [] => some s
  | s, new_node :: rest =>
    if new_node ∈ s.l_nodes_s then none
    else
      let s := { s with l_nodes_s := s.l_nodes_s ++ [new_node] }
      match update_intersection_matrix_in_radial_direction s ch_j new_node with
      | none => none
      | some (s, chains_over_radial_direction) =>
        match update_visibility_chain_pointers_in_radial_direction s
            chains_over_radial_direction new_node ch_j with
        | none => none
        | some s => add_interpolated_nodes_loop ch_j s rest

/-- Embedding of `add_interpolated_nodes_to_system` (merge_chains.py:671). -/
def add_interpolated_nodes_to_system (s : SystemStatus) (ch_j : Chain)
    (interpolated : List Node) : Option SystemStatus :=
  (add_interpolated_nodes_loop ch_j s interpolated).map
    (fun s => update_chain_neighbourhood s [ch_j.id])

/-- Embedding of `update_chain_after_connect` (merge_chains.py:943): every
neighbour reference that pointed at `ch_k` is redirected to `ch_j`. -/
def update_chain_after_connect (s : SystemStatus) (ch_j ch_k : Chain) :
    SystemStatus :=
  { s with l_ch_s := s.l_ch_s.map (fun chain =>
      let chain := if chain.A_outward = some ch_k.id then
        { chain with A_outward := some ch_j.id } else chain
      let chain := if chain.A_inward = some ch_k.id then
        { chain with A_inward := some ch_j.id } else chain
      let chain := if chain.B_outward = some ch_k.id then
        { chain with B_outward := some ch_j.id } else chain
      if chain.B_inward = some ch_k.id then
        { chain with B_inward := some ch_j.id } else chain) }

/-- Embedding of `update_intersection_matrix` (merge_chains.py:561): OR
`ch_k`'s row into `ch_j`'s row and column, then delete `ch_k`'s row and
column.  Out-of-range ids raise `IndexError` in the source (`none`). -/
def update_intersection_matrix (s : SystemStatus) (ch_j ch_k : Chain) :
    Option SystemStatus :=
  if ch_j.id < s.M.dim ∧ ch_k.id < s.M.dim then
    let or_inter : ℕ → Bool := fun t => s.M.f ch_j.id t || s.M.f ch_k.id t
    let M1 : ℕ → ℕ → Bool := fun i j =>
      if i = ch_j.id then or_inter j
      else if j = ch_j.id then or_inter i
      else s.M.f i j
    some { s with M := ⟨s.M.dim - 1,
      fun i j => M1 (skipIdx ch_k.id i) (skipIdx ch_k.id j)⟩ }
  else none

/-- Embedding of `delete_closest_chain` (merge_chains.py:552): remove `ch_k`
from the live chain list and from the candidate list (both by `list.index`,
which raises `ValueError` when absent — `none`).  The candidate list aliases
state chains and is carried as a list of ids. -/
def delete_closest_chain (s : SystemStatus) (ch_k : Chain)
    (l_candidates_chi : List ℕ) : Option (SystemStatus × List ℕ) :=
  match s.l_ch_s.findIdx? (fun c => c.id = ch_k.id) with
  | none => none
  | some cad_2_index =>
    match l_candidates_chi.findIdx? (fun cid => cid = ch_k.id) with
    | none => none
    | some id_connected_chain =>
      some ({ s with l_ch_s := s.l_ch_s.eraseIdx cad_2_index },
        l_candidates_chi.eraseIdx id_connected_chain)

/-- Embedding of `update_chains_ids` (merge_chains.py:580): every chain whose
id exceeds the deleted chain's id is renumbered one down.  `change_id`
rewrites the ownership ids of the nodes those chains own; the node objects
are aliased in `state.l_nodes_s`, which therefore sees the same rewrite
(under ownership invariant 1). -/
def update_chains_ids (s : SystemStatus) (ch_k : Chain) : SystemStatus :=
  { s with
      l_ch_s := s.l_ch_s.map (fun ch_old =>
        if ch_k.id < ch_old.id then ch_old.change_id (ch_old.id - 1) else ch_old),
      l_nodes_s := s.l_nodes_s.map (fun n =>
        if ch_k.id < n.chain_id then { n with chain_id := n.chain_id - 1 } else n) }

/-- Embedding of `update_chain_list` (merge_chains.py:614): register the
interpolated nodes, repair the neighbour pointers, merge and shrink the
matrix, delete `ch_k`, renumber.  The final `map` on the candidate ids is the
id view of the aliasing: the candidate list holds the renumbered chain
objects. -/
def update_chain_list (s : SystemStatus) (ch_j ch_k : Chain)
    (l_candidates_chi : List ℕ) (interpolated : List Node) :
    Option (SystemStatus × List ℕ) :=
  match add_interpolated_nodes_to_system s ch_j interpolated with
  | none => none
  | some s =>
    let s := update_chain_after_connect s ch_j ch_k
    match update_intersection_matrix s ch_j ch_k with
    | none => none
    | some s =>
      match delete_closest_chain s ch_k l_candidates_chi with
      | none => none
      | some (s, l_candidates_chi) =>
        some (update_chains_ids s ch_k,
          l_candidates_chi.map (fun i => if ch_k.id < i then i - 1 else i))

/-- The merge step of the driver (merge_chains.py:373 to 375):
`merge_two_chains` followed by `update_chain_list` on the mutated `ch_j`
object (re-read from the state through its id, as the Python aliasing
does). -/
def merge_and_update (s : SystemStatus) (ch_j ch_k : Chain)
    (endpoint : EndPoints) (l_candidates_chi : List ℕ)
    (interpolated : List Node) : Option (SystemStatus × List ℕ) :=
  let s1 := merge_two_chains s ch_j ch_k endpoint interpolated
  let ch_j1 := (get_chain_from_list_by_id s1.l_ch_s ch_j.id).getD ch_j
  update_chain_list s1 ch_j1 ch_k l_candidates_chi interpolated

/-! ### Closing pass (merge_chains.py:146, 251 and 290) -/

/-- Modelled from the spec: `chain.get_node_by_angle` from `lib/chain.py` —
the chain's sample on the given ray, if any. -/
def Chain.get_node_by_angle (c : Chain) (angle : ℚ) : Option Node :=
  c.l_nodes.find? (fun n => n.angle = angle)

/-- Embedding of `SystemStatus.get_common_chain_to_both_borders`
(merge_chains.py:146): among the chains covering every angle the given chain
misses (plus its two endpoint angles), the one whose sample on `extA`'s ray
is closest to `extA`. -/
def get_common_chain_to_both_borders (g : Geom) (s : SystemStatus)
    (chain : Chain) : Option Chain :=
  let chain_angle_domain := chain.get_dot_angle_values
  let angles_where_there_is_no_nodes :=
    ((gridAngles s.Nr).filter (fun a => ¬ chain_angle_domain.contains a))
      ++ [chain.extA.angle, chain.extB.angle]
  let chains_where_there_is_no_nodes := s.l_ch_s.filter (fun ch_i =>
    ((ch_i.get_dot_angle_values.dedup.filter
        (fun a => angles_where_there_is_no_nodes.contains a)).length
      = angles_where_there_is_no_nodes.length : Bool))
  if chains_where_there_is_no_nodes.isEmpty then none
  else
    let nodes_in_ray_a := chains_where_there_is_no_nodes.filterMap
      (fun cad => cad.get_node_by_angle chain.extA.angle)
    let sorted := sortAscBy
      (fun x => g.euclidean_distance_between_nodes x chain.extA) nodes_in_ray_a
    match sorted with
    | [] => none
    | x :: _ => get_chain_from_list_by_id s.l_ch_s x.chain_id

/-- Embedding of `close_chain` (merge_chains.py:251), Algorithm 5: bridge the
gap between the chain's own endpoints `extB` and `extA` through interpolated
nodes guided by the support chain; skip (state unchanged) when the overlap
guard fires; otherwise add the nodes to the chain and register them. -/
def close_chain (g : Geom) (state : SystemStatus) (chain : Chain)
    (ch_i : Option Chain) (support2 : Option Chain) : Option SystemStatus :=
  let ch_j_endpoint_node := chain.extB
  let ch_k_endpoint_node := chain.extA
  let ch_j_endpoint_type := EndPoints.B
  let chain_copy := chain
  let interpolated_nodes := g.interpolate_nodes_given_chains ch_i
    ch_j_endpoint_node ch_k_endpoint_node ch_j_endpoint_type chain_copy support2
  let interpolated_nodes_plus_endpoints :=
    [ch_j_endpoint_node] ++ interpolated_nodes ++ [ch_k_endpoint_node]
  if g.exist_chain_overlapping state.l_ch_s interpolated_nodes_plus_endpoints
      chain chain ch_j_endpoint_type (ch_i.getD chain) then
    some state
  else
    let l' := update_chain_in_list state.l_ch_s chain.id
      (fun c => (c.add_nodes_list interpolated_nodes).1)
    let state := { state with l_ch_s := l' }
    add_interpolated_nodes_to_system state
      ((chain.add_nodes_list interpolated_nodes).1) interpolated_nodes

/-- The skip condition of the closing pass (merge_chains.py:294): a chain is
not attempted when it is already complete (`size >= Nr`) or not near-complete
(`size < threshold * Nr`). -/
def closing_pass_skip (threshold : ℚ) (chain : Chain) : Bool :=
  decide (chain.Nr ≤ chain.size) ||
    decide ((chain.size : ℚ) < threshold * (chain.Nr : ℚ))

/-- The loop of
`iterate_over_chains_list_and_complete_them_if_met_conditions`
(merge_chains.py:290), walking the live chain list by position (the closing
pass never adds or deletes chains, so the traversal is stable). -/
def closing_pass_go (g : Geom) (threshold : ℚ) :
    ℕ → ℕ → SystemStatus → Option SystemStatus
  | 0, _, s => some s
  | fuel + 1, i, s =>
    match s.l_ch_s[i]? with
    | none => some s
    | some chain =>
      if closing_pass_skip threshold chain then
        closing_pass_go g threshold fuel (i + 1) s
      else
        let support1 := get_common_chain_to_both_borders g s chain
        match close_chain g s chain support1 none with
        | none => none
        | some s => closing_pass_go g threshold fuel (i + 1) s

/-- Embedding of
`iterate_over_chains_list_and_complete_them_if_met_conditions`
(merge_chains.py:290) with the default threshold 0.9. -/
def iterate_over_chains_list_and_complete_them_if_met_conditions (g : Geom)
    (state : SystemStatus) (threshold : ℚ := 9/10) :
    Option (List Chain × List Node × IntersectionMatrix) :=
  (closing_pass_go g threshold state.l_ch_s.length 0 state).map
    (fun s => (s.l_ch_s, s.l_nodes_s, s.M))

/-! ### Parameter schedule and top-level entry point (merge_chains.py:27 to
112) -/

/-- Embedding of `extract_border_chain_from_list` (merge_chains.py:27).
`next(...)` over an empty generator raises `StopIteration`, modelled by
`none`: with no border chain in the list (in particular with an empty chain
collection) the initialisation raises. -/
def extract_border_chain_from_list (ch_s : List Chain) (nodes_s : List Node) :
    Option (Chain × List Chain × List Node) :=
  let ch_s_without_border := ch_s.filter (fun c => c.typ ≠ TypeChains.border)
  match ch_s.find? (fun c => c.typ = TypeChains.border) with
  | none => none
  | some border_chain =>
    some (border_chain, ch_s_without_border,
      nodes_s.filter (fun n => n.chain_id ≠ border_chain.id))

/-- Modelled from the spec: `ch.copy_chain` from `lib/chain.py` is a deep
copy; under the value semantics of this functional embedding it is the
identity (the heap embedding below is the view where copying is visible). -/
def copy_chain (c : Chain) : Chain := c

/-- Embedding of `copy_chains_and_nodes` (merge_chains.py:76). -/
def copy_chains_and_nodes (ch_s : List Chain) : List Chain × List Node :=
  let ch_s := ch_s.map copy_chain
  (ch_s, ch_s.foldl (fun acc chain => acc ++ chain.l_nodes) [])

/-- The number of schedule passes (`ConnectParameters.iterations`,
merge_chains.py:42). -/
def connect_iterations : ℕ := 9

/-- Row `th_radial_tolerance` of Table 1 (merge_chains.py:43). -/
def th_radial_tolerance_schedule : List ℚ :=
  [1/10, 1/5, 1/10, 1/5, 1/10, 1/5, 1/10, 1/5, 1/5]

/-- Row `neighbourhood_size` of Table 1 (merge_chains.py:44). -/
def neighbourhood_size_schedule : List ℚ := [10, 10, 22, 22, 45, 45, 22, 45, 45]

/-- Row `th_regular_derivative` of Table 1 (merge_chains.py:45). -/
def th_regular_derivative_schedule : List ℚ :=
  [3/2, 3/2, 3/2, 3/2, 3/2, 3/2, 2, 2, 2]

/-- Row `th_distribution_size` of Table 1 (merge_chains.py:46). -/
def th_distribution_size_schedule : List ℚ := [2, 2, 3, 3, 3, 3, 2, 3, 3]

/-- Row `derivative_from_center` of Table 1 (merge_chains.py:47). -/
def derivative_from_center_schedule : List Bool :=
  [false, false, false, false, false, false, true, true, true]

/-- The parameter bundle produced by
`ConnectParameters.get_iteration_parameters` (merge_chains.py:54). -/
structure IterationParams where
  th_radial_tolerance : ℚ
  th_distribution_size : ℚ
  neighbourhood_size : ℚ
  th_regular_derivative : ℚ
  derivative_from_center : Bool
  l_ch_s : List Chain
  l_nodes_s : List Node

/-- Embedding of `ConnectParameters.get_iteration_parameters`
(merge_chains.py:54) for pass `counter`, given the current without-border
lists and the border chain.  On the last pass the border chain is renumbered
to the next dense id and (an alias of it and of its nodes) is appended to the
lists. -/
def get_iteration_parameters (counter : ℕ) (border_chain : Chain)
    (ch_s_without_border : List Chain) (nodes_s_without_border : List Node) :
    IterationParams :=
  let border' := if counter = connect_iterations - 1 then
    border_chain.change_id ch_s_without_border.length else border_chain
  { th_radial_tolerance := th_radial_tolerance_schedule.getD counter 0
    th_distribution_size := th_distribution_size_schedule.getD counter 0
    neighbourhood_size := neighbourhood_size_schedule.getD counter 0
    th_regular_derivative := th_regular_derivative_schedule.getD counter 0
    derivative_from_center := derivative_from_center_schedule.getD counter false
    l_ch_s := if counter = connect_iterations - 1 then
      ch_s_without_border ++ [border'] else ch_s_without_border
    l_nodes_s := if counter = connect_iterations - 1 then
      nodes_s_without_border ++ border'.l_nodes else nodes_s_without_border }

/-- The 9-pass loop of `merge_chains` (merge_chains.py:103), parameterised by
the per-pass body (`merge_chains_main_logic`, lines 2 to 16 of Algorithm 3),
which receives the iteration parameters and the intersection matrix and
returns the connected chain/node lists and the updated matrix
(`update_list_for_next_iteration` stores the returned lists for the next
pass without copying them). -/
def merge_chains_loop
    (mainLogic : IterationParams → IntersectionMatrix →
      Option (List Chain × List Node × IntersectionMatrix))
    (border_chain : Chain) :
    ℕ → ℕ → List Chain → List Node → IntersectionMatrix → Option (List Chain)
  | 0, _, ch_c, _, _ => some ch_c
  | fuel + 1, counter, ch_s, nodes_s, M =>
    let params := get_iteration_parameters counter border_chain ch_s nodes_s
    match mainLogic params M with
    | none => none
    | some (l_ch_c, l_nodes_c, M') =>
      merge_chains_loop mainLogic border_chain fuel (counter + 1) l_ch_c
        l_nodes_c M'

/-- Embedding of the entry point `merge_chains` (merge_chains.py:84):
deep-copy the input collection, split off the border chain, compute the
intersection matrix, then run the 9 schedule passes.  Debug/visualisation
arguments are pure I/O and omitted. -/
def merge_chains
    (mainLogic : IterationParams → IntersectionMatrix →
      Option (List Chain × List Node × IntersectionMatrix))
    (l_ch_s : List Chain) (nr : ℕ) : Option (List Chain) :=
  let p := copy_chains_and_nodes l_ch_s
  match extract_border_chain_from_list p.1 p.2 with
  | none => none
  | some (border_chain, ch_s_without_border, nodes_s_without_border) =>
    match compute_intersection_matrix p.2 nr with
    | none => none
    | some M =>
      merge_chains_loop mainLogic border_chain connect_iterations 0
        ch_s_without_border nodes_s_without_border M

/-! ### Heap view of the schedule (for the aliasing claims about
`merge_chains`)

The functional embedding above cannot express which chain objects are shared
between passes, so the copying behaviour of `merge_chains` is additionally
embedded over an explicit heap: a chain object is an address into a store,
`copy_chain` allocates a fresh address, and the per-pass body
(`merge_chains_main_logic`) is an arbitrary heap transformation receiving the
addresses of its chain list. -/

/-- A store of chain objects; an address is an index. -/
structure ChainHeap where
  store : List Chain
deriving DecidableEq, Repr

/-- Dereference an address. -/
def heapGet (h : ChainHeap) (a : ℕ) : Chain := h.store.getD a default

/-- In-place mutation of the object at an address. -/
def heapSet (h : ChainHeap) (a : ℕ) (c : Chain) : ChainHeap := ⟨h.store.set a c⟩

/-- Heap view of `copy_chains_and_nodes` (merge_chains.py:76): `copy_chain`
allocates a fresh object for every chain of the input list; the caller's
objects are left untouched and the fresh addresses are returned. -/
def copy_chains_and_nodes_heap (h : ChainHeap) (addrs : List ℕ) :
    ChainHeap × List ℕ :=
  (⟨h.store ++ addrs.map (heapGet h)⟩, List.range' h.store.length addrs.length)

/-- Heap view of the 9-pass loop of `merge_chains` (merge_chains.py:103):
`run_passes pb b k` is the heap and chain-address list after the first `k`
passes.  Pass `k` receives exactly the address list the previous pass
returned (`update_list_for_next_iteration` stores it without copying); only
the last pass appends the border chain's address, after renumbering it in
place (`get_iteration_parameters`). -/
def run_passes (passBody : ChainHeap → List ℕ → ChainHeap × List ℕ)
    (borderAddr : ℕ) : ℕ → ChainHeap → List ℕ → ChainHeap × List ℕ
  | 0, h, cur => (h, cur)
  | k + 1, h, cur =>
    let p := run_passes passBody borderAddr k h cur
    let h' := if k = connect_iterations - 1 then
      heapSet p.1 borderAddr ((heapGet p.1 borderAddr).change_id p.2.length)
      else p.1
    let inp := if k = connect_iterations - 1 then p.2 ++ [borderAddr] else p.2
    passBody h' inp

/-- Heap view of the entry point `merge_chains` (merge_chains.py:84): one
deep copy of the full collection up front, then the 9 passes share the
copied objects. -/
def merge_chains_heap (passBody : ChainHeap → List ℕ → ChainHeap × List ℕ)
    (h0 : ChainHeap) (addrs0 : List ℕ) : Option (ChainHeap × List ℕ) :=
  let hc := copy_chains_and_nodes_heap h0 addrs0
  (hc.2.find? (fun a => (heapGet hc.1 a).typ = TypeChains.border)).map
    (fun borderAddr =>
      let without :=
        hc.2.filter (fun a => (heapGet hc.1 a).typ ≠ TypeChains.border)
      run_passes passBody borderAddr connect_iterations hc.1 without)

/-! ### Concrete evaluation scenarios

Small concrete instances used to evaluate the embedded operations at
explicit inputs (witnesses of the theorems below). -/

/-- The identity (eye) intersection matrix of a given dimension. -/
def eyeM (n : ℕ) : IntersectionMatrix := ⟨n, fun i j => i == j⟩

/-- A concrete geometry collaborator: all angular distances 0, all Euclidean
distances 1, minimal endpoint distances 0, empty interpolation domains and
interpolations, similarity always passing with distance 0, no overlap. -/
def wgeom : Geom where
  euclidean_distance_between_nodes := fun _ _ => 1
  angular_distance_between_chains := fun _ _ _ => 0
  minimum_euclidean_distance_between_chains_endpoints := fun _ _ => 0
  compute_interpolation_domain := fun _ _ _ _ => []
  similarity_conditions := fun _ _ _ _ _ => (true, 0)
  interpolate_nodes_given_chains := fun _ _ _ _ _ _ => []
  exist_chain_overlapping := fun _ _ _ _ _ _ => false

/-- Support chain of the search scenario (id 0, one node on ray 0). -/
def wchi : Chain :=
  { id := 0, l_nodes := [⟨0, 5, 0⟩], Nr := 8, typ := TypeChains.normal }

/-- Source chain of the search scenario (id 1, node on ray 90, both endpoint
outward references pointing at the support chain). -/
def wchj : Chain :=
  { id := 1, l_nodes := [⟨90, 1, 1⟩], Nr := 8, typ := TypeChains.normal,
    A_outward := some 0, B_outward := some 0 }

/-- B-side candidate of the search scenario (id 2, node on ray 180). -/
def wck : Chain :=
  { id := 2, l_nodes := [⟨180, 1, 2⟩], Nr := 8, typ := TypeChains.normal,
    A_outward := some 0 }

/-- A-side candidate of the search scenario (id 3, node on ray 45). -/
def wca : Chain :=
  { id := 3, l_nodes := [⟨45, 1, 3⟩], Nr := 8, typ := TypeChains.normal,
    B_outward := some 0 }

/-- Candidate list of the search scenario. -/
def wcands : List Chain := [wchj, wck, wca]

/-- System state of the search scenario. -/
def wstate : SystemStatus :=
  { l_ch_s := [wchi, wchj, wck, wca],
    l_nodes_s := [⟨0, 5, 0⟩, ⟨90, 1, 1⟩, ⟨180, 1, 2⟩, ⟨45, 1, 3⟩],
    M := eyeM 4, Nr := 8 }

/-- Chains of the merge scenario: id 0 with a node on ray 0. -/
def mc0 : Chain :=
  { id := 0, l_nodes := [⟨0, 1, 0⟩], Nr := 4, typ := TypeChains.normal }

/-- Chains of the merge scenario: id 1 with a node on ray 90. -/
def mc1 : Chain :=
  { id := 1, l_nodes := [⟨90, 1, 1⟩], Nr := 4, typ := TypeChains.normal }

/-- Chains of the merge scenario: id 2 with a node on ray 180. -/
def mc2 : Chain :=
  { id := 2, l_nodes := [⟨180, 1, 2⟩], Nr := 4, typ := TypeChains.normal }

/-- System state of the merge scenario (three chains, eye matrix). -/
def mstate : SystemStatus :=
  { l_ch_s := [mc0, mc1, mc2],
    l_nodes_s := [⟨0, 1, 0⟩, ⟨90, 1, 1⟩, ⟨180, 1, 2⟩],
    M := eyeM 3, Nr := 4 }

/-- The merge scenario run to completion: `mc1` merged into `mc0` with no
interpolated nodes. -/
def mres : SystemStatus × List ℕ :=
  (merge_and_update mstate mc0 mc1 EndPoints.B [1, 2] []).getD (mstate, [])

/-- The intersection matrix computed from the merge scenario's nodes. -/
def mM0 : IntersectionMatrix :=
  (compute_intersection_matrix mstate.l_nodes_s 4).getD ⟨0, fun _ _ => false⟩

/-- State for the support-chain scenario: two chains, no pending change. -/
def fstate : SystemStatus :=
  { l_ch_s := [mc0, mc1], l_nodes_s := [⟨0, 1, 0⟩, ⟨90, 1, 1⟩],
    M := eyeM 2, Nr := 4, size_l_chain_init := 2 }

/-- The support-chain scenario state after one no-change call. -/
def fstate1 : SystemStatus :=
  { fstate with next_chain_index := 1, iterations_since_last_change := 1 }

/-- The support-chain scenario state when the pass completes. -/
def fstate2 : SystemStatus :=
  { fstate with next_chain_index := 0, iterations_since_last_change := 2 }

/-- Border chain of the heap scenario. -/
def hborder : Chain :=
  { id := 0, l_nodes := [⟨0, 2, 0⟩], Nr := 4, typ := TypeChains.border }

/-- Normal chain of the heap scenario. -/
def hnormal : Chain :=
  { id := 1, l_nodes := [⟨90, 1, 1⟩], Nr := 4, typ := TypeChains.normal }

/-- Initial heap of the heap scenario: the caller's two chain objects. -/
def hheap0 : ChainHeap := ⟨[hborder, hnormal]⟩

/-- A concrete per-pass body for the heap scenario, mirroring what a merge
does to a chain object: it appends an interpolated node to the first chain of
its list, in place. -/
def hpass : ChainHeap → List ℕ → ChainHeap × List ℕ :=
  fun h addrs =>
    match addrs with
    | [] => (h, addrs)
    | a :: _ =>
      (heapSet h a (((heapGet h a).add_nodes_list [⟨45, 1, 1⟩]).1), addrs)

/-! ## Lemmas and theorems -/

/-! ### Sorting lemmas -/

theorem insertAscBy_perm (key : α → ℚ) (x : α) (l : List α) :
    List.Perm (insertAscBy key x l) (x :: l) := by
  induction l with
  | nil => simp [insertAscBy]
  | cons y ys ih =>
    simp only [insertAscBy]
    split
    · exact List.Perm.refl _
    · exact (List.Perm.cons y ih).trans (List.Perm.swap x y ys)

theorem sortAscBy_perm (key : α → ℚ) (l : List α) :
    List.Perm (sortAscBy key l) l := by
  induction l with
  | nil => simp [sortAscBy]
  | cons y ys ih =>
    simpa [sortAscBy] using (insertAscBy_perm key y (sortAscBy key ys)).trans
      (List.Perm.cons y ih)

theorem mem_sortAscBy {key : α → ℚ} {x : α} {l : List α} :
    x ∈ sortAscBy key l ↔ x ∈ l :=
  (sortAscBy_perm key l).mem_iff

theorem insertDescBy_perm (key : α → ℕ) (x : α) (l : List α) :
    List.Perm (insertDescBy key x l) (x :: l) := by
  induction l with
  | nil => simp [insertDescBy]
  | cons y ys ih =>
    simp only [insertDescBy]
    split
    · exact List.Perm.refl _
    · exact (List.Perm.cons y ih).trans (List.Perm.swap x y ys)

theorem sortDescBy_perm (key : α → ℕ) (l : List α) :
    List.Perm (sortDescBy key l) l := by
  induction l with
  | nil => simp [sortDescBy]
  | cons y ys ih =>
    simpa [sortDescBy] using (insertDescBy_perm key y (sortDescBy key ys)).trans
      (List.Perm.cons y ih)

theorem mem_sortDescBy {key : α → ℕ} {x : α} {l : List α} :
    x ∈ sortDescBy key l ↔ x ∈ l :=
  (sortDescBy_perm key l).mem_iff

/-! ### C10 — the endpoint-B tie-break distance -/

/-- C10: `distance_between_border (chain_1, chain_2, EndPoints.B)` returns the
Euclidean distance between `chain_2.extB` and `chain_2.extA` — a value that
depends only on `chain_2` and is independent of `chain_1`; only the
`EndPoints.A` case measures a distance involving `chain_1` (between
`chain_1.extA` and `chain_2.extB`).  Hence the endpoint-B tie-break distance
used by `select_closest_chain` is not a distance between the chain and its
candidate. -/
theorem C10_distance_between_border (g : Geom) (chain_1 chain_1' chain_2 : Chain) :
    distance_between_border g chain_1 chain_2 EndPoints.B
        = g.euclidean_distance_between_nodes chain_2.extB chain_2.extA
      ∧ distance_between_border g chain_1 chain_2 EndPoints.B
        = distance_between_border g chain_1' chain_2 EndPoints.B
      ∧ distance_between_border g chain_1 chain_2 EndPoints.A
        = g.euclidean_distance_between_nodes chain_1.extA chain_2.extB := by
  refine ⟨rfl, rfl, rfl⟩

/-! ### C8 — empty chain collection -/

/-- C8: on an empty chain collection, `merge_chains` does not return a
trivial output: its initialisation raises (the `next(...)` of
`extract_border_chain_from_list` finds no border chain and raises
`StopIteration`; `compute_intersection_matrix` would likewise raise
`ValueError` on `np.max` of an empty id array).  This holds for every
per-pass body. -/
theorem C8_empty_input_raises
    (mainLogic : IterationParams → IntersectionMatrix →
      Option (List Chain × List Node × IntersectionMatrix)) (nr : ℕ) :
    merge_chains mainLogic [] nr = none := rfl

/-! ### C9 — selection of the endpoint with the larger tie-break distance -/

/-- C9: when the symmetric searches at both endpoints of `ch_j` produce
candidates, `find_closest` returns the A-side candidate (with endpoint A)
whenever the A-side tie-break distance is at least the B-side one (ties
included), and the B-side candidate (with endpoint B) whenever the B-side
distance is strictly larger. -/
theorem C9_find_closest_selects_larger_distance (g : Geom)
    (state : SystemStatus) (ch_j : Chain)
    (l_candidates_chi l_no_intersection_j : List Chain) (ch_i : Chain)
    (location : ChainLocation) (ca cb : Chain)
    (ha : get_closest_chain_logic g state ch_j l_candidates_chi
      l_no_intersection_j ch_i location EndPoints.A true = some ca)
    (hb : get_closest_chain_logic g state ch_j l_candidates_chi
      l_no_intersection_j ch_i location EndPoints.B true = some cb) :
    (¬(distance_between_border g ch_j ca EndPoints.A = -1 ∧
        distance_between_border g ch_j cb EndPoints.B = -1) →
      distance_between_border g ch_j cb EndPoints.B ≤
        distance_between_border g ch_j ca EndPoints.A →
      find_closest g state ch_j l_candidates_chi l_no_intersection_j ch_i
        location true = (some ca, some EndPoints.A)) ∧
    (distance_between_border g ch_j ca EndPoints.A <
        distance_between_border g ch_j cb EndPoints.B →
      find_closest g state ch_j l_candidates_chi l_no_intersection_j ch_i
        location true = (some cb, some EndPoints.B)) := by
  constructor
  · intro hne hle
    simp only [find_closest, ha, hb, select_closest_chain]
    rw [if_neg hne, if_pos hle]
  · intro hlt
    have hne : ¬(distance_between_border g ch_j ca EndPoints.A = -1 ∧
        distance_between_border g ch_j cb EndPoints.B = -1) := by
      rintro ⟨h1, h2⟩
      rw [h1, h2] at hlt
      exact lt_irrefl _ hlt
    simp only [find_closest, ha, hb, select_closest_chain]
    rw [if_neg hne, if_neg (not_le.mpr hlt)]

/-- Witness for C9: in the concrete search scenario both endpoint searches
succeed (A side `wca`, B side `wck`), the two tie-break distances are equal
(both 1), and `find_closest` returns the A-side candidate with endpoint A. -/
theorem C9_find_closest_selects_larger_distance_witness :
    find_closest wgeom wstate wchj wcands
      (find_non_intersection wstate.M wcands wchj) wchi
      ChainLocation.inwards true = (some wca, some EndPoints.A) := by
  have h := C9_find_closest_selects_larger_distance wgeom wstate wchj wcands
    (find_non_intersection wstate.M wcands wchj) wchi ChainLocation.inwards
    wca wck (by decide) (by decide)
  exact h.1 (by decide) (by decide)

/-! ### C4 — the symmetric candidate check -/

/-- C4: with the symmetric flag set, `get_closest_chain_logic` returns a
candidate `ch_k` exactly when the forward search finds `ch_k`, the search
re-run from `ch_k` with the flipped endpoint label (over the candidates not
intersecting `ch_k`) finds exactly `ch_j`, and the combined size does not
exceed `ch_k`'s ray count; in particular it returns `none` whenever the
reverse search yields anything other than `ch_j`, and whenever
`ch_k.size + ch_j.size > ch_k.Nr`. -/
theorem C4_symmetric_check (g : Geom) (state : SystemStatus) (ch_j : Chain)
    (l_candidates_chi l_no_intersection_j : List Chain) (ch_i : Chain)
    (location : ChainLocation) (endpoint : EndPoints) (ch_k : Chain) :
    get_closest_chain_logic g state ch_j l_candidates_chi l_no_intersection_j
        ch_i location endpoint true = some ch_k
      ↔ (get_closest_chain g state ch_j l_no_intersection_j ch_i location
            endpoint state.M = some ch_k
          ∧ get_closest_chain g state ch_k
              (find_non_intersection state.M l_candidates_chi ch_k) ch_i
              location
              (if endpoint = EndPoints.B then EndPoints.A else EndPoints.B)
              state.M = some ch_j
          ∧ ch_k.size + ch_j.size ≤ ch_k.Nr) := by
  unfold get_closest_chain_logic
  cases hf : get_closest_chain g state ch_j l_no_intersection_j ch_i location
      endpoint state.M with
  | none => simp
  | some c =>
    simp only [Bool.not_true, Bool.false_eq_true, if_false]
    by_cases hc : c = ch_k
    · subst hc
      by_cases hsym : get_closest_chain g state c
          (find_non_intersection state.M l_candidates_chi c) ch_i location
          (if endpoint = EndPoints.B then EndPoints.A else EndPoints.B)
          state.M = some ch_j
      · rw [if_neg (by simp [hsym]), hsym]
        by_cases hsz : c.size + ch_j.size > c.Nr
        · rw [if_pos hsz]
          simp [Nat.not_le.mpr hsz]
        · rw [if_neg hsz]
          simp [Nat.le_of_not_lt hsz]
      · rw [if_pos (by simpa using hsym)]
        simp [hsym]
    · constructor
      · intro h
        exfalso
        by_cases hsym : get_closest_chain g state c
            (find_non_intersection state.M l_candidates_chi c) ch_i location
            (if endpoint = EndPoints.B then EndPoints.A else EndPoints.B)
            state.M = some ch_j
        · rw [if_neg (by simp [hsym])] at h
          split_ifs at h
          exact hc (by injection h)
        · rw [if_pos (by simpa using hsym)] at h
          exact Option.noConfusion h
      · rintro ⟨h1, -, -⟩
        exact absurd (by injection h1) hc

/-! ### C3 — chain sizes never exceed the ray count -/

/-- C3: no chain's size exceeds `Nr`: (i) `connectivity_goodness_condition`
returns `(False, -1)` whenever `ch_j.size + candidate.size > ch_j.Nr`;
(ii) the closing pass only attempts to close chains whose size is strictly
below `Nr` (and at least `threshold * Nr`); (iii) a chain whose samples sit
on pairwise distinct angles of the `Nr`-ray grid has size at most `Nr`. -/
theorem C3_size_never_exceeds_Nr :
    (∀ (g : Geom) (state : SystemStatus) (ch_j candidate_chain ch_i : Chain)
        (endpoint : EndPoints),
        ch_j.Nr < ch_j.size + candidate_chain.size →
        connectivity_goodness_condition g state ch_j candidate_chain ch_i
          endpoint = (false, -1))
    ∧ (∀ (threshold : ℚ) (chain : Chain),
        closing_pass_skip threshold chain = false →
        chain.size < chain.Nr ∧ threshold * (chain.Nr : ℚ) ≤ (chain.size : ℚ))
    ∧ (∀ chain : Chain, chain.get_dot_angle_values.Nodup →
        (∀ a ∈ chain.get_dot_angle_values, a ∈ gridAngles chain.Nr) →
        chain.size ≤ chain.Nr) := by
  refine ⟨?_, ?_, ?_⟩
  · intro g state ch_j candidate_chain ch_i endpoint h
    unfold connectivity_goodness_condition
    rw [if_pos h]
  · intro threshold chain h
    simp only [closing_pass_skip, Bool.or_eq_false_iff, decide_eq_false_iff_not,
      not_le, not_lt] at h
    exact ⟨h.1, h.2⟩
  · intro chain hnodup hgrid
    have hsub : chain.get_dot_angle_values ⊆ gridAngles chain.Nr :=
      fun a ha => hgrid a ha
    have hle := (hnodup.subperm hsub).length_le
    have h1 : chain.get_dot_angle_values.length = chain.size := by
      simp [Chain.get_dot_angle_values, Chain.size]
    have h2 : (gridAngles chain.Nr).length = chain.Nr := by
      unfold gridAngles
      rw [List.length_map, List.length_range]
    rw [h1, h2] at hle
    exact hle

/-- Witness for C3: a merge whose combined size exceeds the ray count is
rejected with `(false, -1)`; a chain of size 1 with `Nr = 2` and threshold
`1/2` is attempted by the closing pass and indeed satisfies
`threshold * Nr <= size < Nr`; a one-node chain on the 4-ray grid has size at
most 4. -/
theorem C3_size_never_exceeds_Nr_witness :
    connectivity_goodness_condition wgeom wstate
        { id := 7, l_nodes := [⟨0, 1, 7⟩], Nr := 1, typ := TypeChains.normal }
        { id := 8, l_nodes := [⟨90, 1, 8⟩], Nr := 1, typ := TypeChains.normal }
        wchi EndPoints.A = (false, -1)
      ∧ (mc0.size < mc0.Nr ∧ (1/4 : ℚ) * (mc0.Nr : ℚ) ≤ (mc0.size : ℚ))
      ∧ mc0.size ≤ mc0.Nr := by
  refine ⟨?_, ?_, ?_⟩
  · exact C3_size_never_exceeds_Nr.1 wgeom wstate _ _ wchi EndPoints.A
      (by decide)
  · refine C3_size_never_exceeds_Nr.2.1 (1/4) mc0 ?_
    simp only [closing_pass_skip, mc0, Chain.size, Bool.or_eq_false_iff,
      decide_eq_false_iff_not]
    norm_num
  · refine C3_size_never_exceeds_Nr.2.2 mc0 (by decide) ?_
    intro a ha
    simp only [mc0, Chain.get_dot_angle_values, List.map_cons, List.map_nil,
      List.mem_singleton] at ha
    subst ha
    simp only [mc0, gridAngles, List.mem_map, List.mem_range]
    exact ⟨0, by norm_num, by norm_num⟩

/-! ### C5 — chains sharing a ray are never merged directly -/

theorem mem_find_non_intersection {M : IntersectionMatrix}
    {l_candidates_chi : List Chain} {ch_j c : Chain}
    (h : c ∈ find_non_intersection M l_candidates_chi ch_j)
    (hdim : c.id < M.dim) : M.f ch_j.id c.id = false := by
  have h' := (List.mem_filter.mp h).2
  simp only [Bool.not_eq_eq_eq_not, Bool.not_true, Bool.and_eq_false_iff,
    decide_eq_false_iff_not] at h'
  rcases h' with h' | h'
  · exact absurd hdim h'
  · exact h'

theorem find_non_intersection_subset {M : IntersectionMatrix}
    {l_candidates_chi : List Chain} {ch_j c : Chain}
    (h : c ∈ find_non_intersection M l_candidates_chi ch_j) :
    c ∈ l_candidates_chi :=
  (List.mem_filter.mp h).1

theorem sort_chains_in_neighbourhood_cads {g : Geom} {l : List Set}
    {ch_j : Chain} {st : Set} (h : st ∈ sort_chains_in_neighbourhood g l ch_j) :
    st.cad ∈ l.map Set.cad := by
  unfold sort_chains_in_neighbourhood at h
  rw [List.mem_flatMap] at h
  obtain ⟨d, -, hst⟩ := h
  rw [List.mem_map] at hst
  obtain ⟨st', hst', rfl⟩ := hst
  rw [mem_sortAscBy, List.mem_map] at hst'
  obtain ⟨cd, hcd, rfl⟩ := hst'
  rw [List.mem_map] at hcd
  obtain ⟨conj, hconj, rfl⟩ := hcd
  show conj.cad ∈ l.map Set.cad
  exact List.mem_map_of_mem Set.cad (List.mem_of_mem_filter hconj)

theorem get_chains_in_neighbourhood_subset {g : Geom} {nb : ℚ}
    {l_no_intersection_j : List Chain} {ch_j ch_i : Chain}
    {endpoint : EndPoints} {location : ChainLocation} {st : Set}
    (h : st ∈ get_chains_in_neighbourhood g nb l_no_intersection_j ch_j ch_i
      endpoint location) : st.cad ∈ l_no_intersection_j := by
  unfold get_chains_in_neighbourhood at h
  have h1 := sort_chains_in_neighbourhood_cads h
  rw [List.mem_map] at h1
  obtain ⟨st', hst', hcad⟩ := h1
  have hbase : st' ∈ l_no_intersection_j.filterMap (fun cand_chain =>
      if g.angular_distance_between_chains ch_j cand_chain endpoint ≤ nb ∧
          cand_chain.id ≠ ch_j.id then
        some (Set.mk (g.angular_distance_between_chains ch_j cand_chain endpoint)
          cand_chain)
      else none) := by
    split_ifs at hst' with h1 h2 h3
    · exact List.mem_of_mem_filter hst'
    · exact List.mem_of_mem_filter hst'
    · exact List.mem_of_mem_filter hst'
    · exact List.mem_of_mem_filter hst'
  rw [List.mem_filterMap] at hbase
  obtain ⟨cand, hcand, heq⟩ := hbase
  by_cases hc : g.angular_distance_between_chains ch_j cand endpoint ≤ nb ∧
      cand.id ≠ ch_j.id
  · rw [if_pos hc] at heq
    obtain rfl := Option.some.inj heq
    rw [← hcad]
    exact hcand
  · rw [if_neg hc] at heq
    exact absurd heq (Option.noConfusion)

theorem get_the_closest_chain_mem {g : Geom} {state : SystemStatus}
    {ch_j ch_i : Chain} {endpoint : EndPoints} {rd : ℚ} {candidate : Chain}
    {M : IntersectionMatrix} {full : List Set} :
    get_the_closest_chain_by_radial_distance_that_does_not_intersect g state
        ch_j ch_i endpoint rd candidate M full = candidate ∨
      get_the_closest_chain_by_radial_distance_that_does_not_intersect g state
        ch_j ch_i endpoint rd candidate M full ∈ full.map Set.cad := by
  have hdef : get_the_closest_chain_by_radial_distance_that_does_not_intersect
      g state ch_j ch_i endpoint rd candidate M full
      = (match sortAscBy Set.distance
          (get_all_chain_in_subset_that_satisfy_condition g state ch_j ch_i
            endpoint rd candidate (intersection_chains M candidate full)) with
        | [] => candidate
        | st :: _ => st.cad) := rfl
  rw [hdef]
  rcases hs : sortAscBy Set.distance
      (get_all_chain_in_subset_that_satisfy_condition g state ch_j ch_i endpoint
        rd candidate (intersection_chains M candidate full)) with - | ⟨st, t⟩
  · exact Or.inl rfl
  · have hmem : st ∈ sortAscBy Set.distance
        (get_all_chain_in_subset_that_satisfy_condition g state ch_j ch_i
          endpoint rd candidate (intersection_chains M candidate full)) := by
      rw [hs]; exact List.mem_cons_self st t
    rw [mem_sortAscBy] at hmem
    unfold get_all_chain_in_subset_that_satisfy_condition at hmem
    rcases List.mem_cons.mp hmem with h | h
    · exact Or.inl (by rw [h])
    · rw [List.mem_filterMap] at h
      obtain ⟨chain_inter, hci, heq⟩ := h
      right
      have hcad : st.cad = chain_inter := by
        by_cases hp : (connectivity_goodness_condition g state ch_j chain_inter
            ch_i endpoint).1 = true
        · simp only [hp, if_pos] at heq
          obtain rfl := Option.some.inj heq
          rfl
        · simp only [hp, if_neg, Bool.false_eq_true] at heq
          exact absurd heq (by simp)
      unfold intersection_chains at hci
      rw [List.mem_map] at hci
      obtain ⟨st', hst', hcad'⟩ := hci
      show st.cad ∈ List.map Set.cad full
      rw [hcad, ← hcad']
      exact List.mem_map_of_mem Set.cad (List.mem_of_mem_filter hst')

theorem get_closest_chain_loop_mem {g : Geom} {state : SystemStatus}
    {ch_j ch_i : Chain} {endpoint : EndPoints} {M : IntersectionMatrix}
    {full : List Set} {c : Chain} :
    ∀ rest : List Set, (∀ st ∈ rest, st ∈ full) →
      get_closest_chain_loop g state ch_j ch_i endpoint M full rest = some c →
      c ∈ full.map Set.cad := by
  intro rest
  induction rest with
  | nil => intro _ h; exact absurd h (Option.noConfusion)
  | cons st t ih =>
    intro hsub h
    unfold get_closest_chain_loop at h
    by_cases hp : (connectivity_goodness_condition g state ch_j st.cad ch_i
        endpoint).1 = true
    · rw [if_pos hp] at h
      obtain rfl := Option.some.inj h
      rcases @get_the_closest_chain_mem g state ch_j ch_i endpoint
          ((connectivity_goodness_condition g state ch_j st.cad ch_i
            endpoint).2) st.cad M full with
          h1 | h1
      · rw [h1]
        exact List.mem_map_of_mem Set.cad (hsub st (List.mem_cons_self st t))
      · exact h1
    · rw [if_neg hp] at h
      exact ih (fun x hx => hsub x (List.mem_cons_of_mem st hx)) h

theorem get_closest_chain_mem {g : Geom} {state : SystemStatus} {ch_j : Chain}
    {l_no_intersection_j : List Chain} {ch_i : Chain} {location : ChainLocation}
    {endpoint : EndPoints} {M : IntersectionMatrix} {c : Chain}
    (h : get_closest_chain g state ch_j l_no_intersection_j ch_i location
      endpoint M = some c) : c ∈ l_no_intersection_j := by
  unfold get_closest_chain at h
  have hmem := get_closest_chain_loop_mem _ (fun st hst => hst) h
  rw [List.mem_map] at hmem
  obtain ⟨st, hst, rfl⟩ := hmem
  exact get_chains_in_neighbourhood_subset hst

theorem get_closest_chain_logic_forward {g : Geom} {state : SystemStatus}
    {ch_j : Chain} {l_candidates_chi l_no_intersection_j : List Chain}
    {ch_i : Chain} {location : ChainLocation} {endpoint : EndPoints}
    {symmetric : Bool} {c : Chain}
    (h : get_closest_chain_logic g state ch_j l_candidates_chi
      l_no_intersection_j ch_i location endpoint symmetric = some c) :
    get_closest_chain g state ch_j l_no_intersection_j ch_i location endpoint
      state.M = some c := by
  unfold get_closest_chain_logic at h
  revert h
  cases hf : get_closest_chain g state ch_j l_no_intersection_j ch_i location
      endpoint state.M with
  | none => intro h; exact Option.noConfusion h
  | some c0 =>
    intro h
    simp only at h
    by_cases hsy : symmetric = true
    · subst hsy
      simp only [Bool.not_true, Bool.false_eq_true, if_false] at h
      split_ifs at h
      all_goals exact h
    · have hsy' : symmetric = false := by
        cases symmetric
        · rfl
        · exact absurd rfl hsy
      subst hsy'
      simp only [Bool.not_false, if_true] at h
      exact h

theorem select_closest_chain_cases {g : Geom} {chain : Chain}
    {a_neighbour b_neighbour : Option Chain} {ck : Chain} {e : Option EndPoints}
    (h : select_closest_chain g chain a_neighbour b_neighbour = (some ck, e)) :
    a_neighbour = some ck ∨ b_neighbour = some ck := by
  simp only [select_closest_chain] at h
  split_ifs at h with h1 h2
  · exact absurd (congrArg Prod.fst h) (by simp)
  · exact Or.inl (congrArg Prod.fst h)
  · exact Or.inr (congrArg Prod.fst h)

/-- C5: chains marked as intersecting in `M` are never merged directly:
(i) `find_non_intersection` removes from the candidate set every chain whose
id is marked in `M[ch_j.id]`; (ii) whenever `find_closest` (run, as the
driver does, on the non-intersecting candidates computed by
`find_non_intersection`) produces a merge target `ch_k`, that target belongs
to the non-intersecting set, so `M[ch_j.id][ch_k.id] = 0`. -/
theorem C5_no_direct_merge_of_intersecting_chains :
    (∀ (M : IntersectionMatrix) (l_candidates_chi : List Chain)
        (ch_j c : Chain), c ∈ find_non_intersection M l_candidates_chi ch_j →
        c.id < M.dim → M.f ch_j.id c.id = false)
    ∧ (∀ (g : Geom) (state : SystemStatus) (ch_j : Chain)
        (l_candidates_chi : List Chain) (ch_i : Chain)
        (location : ChainLocation) (ch_k : Chain) (e : EndPoints),
        find_closest g state ch_j l_candidates_chi
            (find_non_intersection state.M l_candidates_chi ch_j) ch_i location
            true = (some ch_k, some e) →
        ch_k ∈ find_non_intersection state.M l_candidates_chi ch_j
          ∧ (ch_k.id < state.M.dim → state.M.f ch_j.id ch_k.id = false)) := by
  constructor
  · intro M cands ch_j c hmem hdim
    exact mem_find_non_intersection hmem hdim
  · intro g state ch_j cands ch_i location ch_k e h
    unfold find_closest at h
    have hsel := select_closest_chain_cases h
    have hmem : ch_k ∈ find_non_intersection state.M cands ch_j := by
      rcases hsel with hs | hs
      · exact get_closest_chain_mem (get_closest_chain_logic_forward hs)
      · exact get_closest_chain_mem (get_closest_chain_logic_forward hs)
    exact ⟨hmem, fun hdim => mem_find_non_intersection hmem hdim⟩

/-- Witness for C5: in the concrete search scenario the driver-style call
returns target `wca` for source `wchj`; the target is in the
non-intersecting candidate set and the matrix entry `M[1][3]` is 0. -/
theorem C5_no_direct_merge_witness :
    wca ∈ find_non_intersection wstate.M wcands wchj
      ∧ wstate.M.f wchj.id wca.id = false := by
  have h := C5_no_direct_merge_of_intersecting_chains.2 wgeom wstate wchj
    wcands wchi ChainLocation.inwards wca EndPoints.A (by decide)
  exact ⟨h.1, h.2 (by decide)⟩

/-! ### C6 — convergence of the support-chain selection -/

theorem find_support_chain_exit_some_chain {s1 s' : SystemStatus} {c : Chain}
    (h : find_support_chain_exit s1 = some (s', some c)) :
    s'.iterations_since_last_change < s'.l_ch_s.length := by
  unfold find_support_chain_exit at h
  split_ifs at h with h1
  · exact absurd (congrArg Prod.snd (Option.some.inj h)) (by simp)
  · revert h
    cases hget : s1.l_ch_s[s1.next_chain_index]? with
    | none => intro h; exact Option.noConfusion h
    | some c0 =>
      intro h
      simp only at h
      have hfst : ({ s1 with size_l_chain_init := s1.l_ch_s.length }
          : SystemStatus) = s' := congrArg Prod.fst (Option.some.inj h)
      rw [← hfst]
      exact Nat.lt_of_not_le h1

theorem find_support_chain_cursor_no_change (s : SystemStatus) (ci : Chain)
    (hsz : s.size_l_chain_init = s.l_ch_s.length)
    (outs ins : List Chain) :
    find_support_chain_cursor s (some ci) outs ins
      = (get_next_chain_index_in_list s.l_ch_s ci).map (fun i =>
          { s with next_chain_index := i,
                   iterations_since_last_change :=
                     s.iterations_since_last_change + 1 }) := by
  simp only [find_support_chain_cursor]
  rw [if_neg (by rw [hsz]; exact lt_irrefl _)]

/-- One `find_support_chain` call that observes no structural change: it
either signals pass completion (when the incremented counter reaches the
chain count) or hands out the next chain, leaving the chain list unchanged
and incrementing the counter by exactly one. -/
theorem find_support_chain_no_change_step (s : SystemStatus) (ci : Chain)
    (hci : ci ∈ s.l_ch_s) (hsz : s.size_l_chain_init = s.l_ch_s.length) :
    (s.l_ch_s.length ≤ s.iterations_since_last_change + 1 →
      ∃ s', find_support_chain s (some ci) [] [] = some (s', none))
    ∧ (s.iterations_since_last_change + 1 < s.l_ch_s.length →
      ∃ s' c', find_support_chain s (some ci) [] [] = some (s', some c')
        ∧ c' ∈ s'.l_ch_s ∧ s'.l_ch_s = s.l_ch_s
        ∧ s'.iterations_since_last_change = s.iterations_since_last_change + 1
        ∧ s'.size_l_chain_init = s.l_ch_s.length) := by
  have hlen0 : s.l_ch_s.length ≠ 0 := by
    intro h0
    rw [List.length_eq_zero] at h0
    rw [h0] at hci
    exact List.not_mem_nil ci hci
  have hsome : (s.l_ch_s.findIdx? (fun c => c = ci)).isSome = true := by
    rw [List.findIdx?_isSome]
    exact List.any_eq_true.mpr ⟨ci, hci, by simp⟩
  obtain ⟨j, hj⟩ := Option.isSome_iff_exists.mp hsome
  have hnext : get_next_chain_index_in_list s.l_ch_s ci
      = some ((j + 1) % s.l_ch_s.length) := by
    unfold get_next_chain_index_in_list
    rw [hj]
    rfl
  have hfsc : find_support_chain s (some ci) [] []
      = find_support_chain_exit
          { s with next_chain_index := (j + 1) % s.l_ch_s.length,
                   iterations_since_last_change :=
                     s.iterations_since_last_change + 1 } := by
    unfold find_support_chain
    rw [if_neg hlen0, find_support_chain_cursor_no_change s ci hsz, hnext]
    rfl
  constructor
  · intro hle
    refine
      ⟨{ s with
          next_chain_index := (j + 1) % s.l_ch_s.length,
          iterations_since_last_change :=
            s.iterations_since_last_change + 1 }, ?_⟩
    rw [hfsc]
    unfold find_support_chain_exit
    rw [if_pos hle]
  · intro hlt
    have hmod : (j + 1) % s.l_ch_s.length < s.l_ch_s.length :=
      Nat.mod_lt _ (Nat.pos_of_ne_zero hlen0)
    have hstep2 :
        find_support_chain s (some ci) [] []
          = some
            ({ s with
                next_chain_index := (j + 1) % s.l_ch_s.length,
                iterations_since_last_change :=
                  s.iterations_since_last_change + 1,
                size_l_chain_init := s.l_ch_s.length },
              some (s.l_ch_s.get ⟨(j + 1) % s.l_ch_s.length, hmod⟩)) := by
      rw [hfsc]
      unfold find_support_chain_exit
      rw [if_neg (Nat.not_le.mpr hlt)]
      have hsc : s.l_ch_s[(j + 1) % s.l_ch_s.length]?
          = some (s.l_ch_s.get ⟨(j + 1) % s.l_ch_s.length, hmod⟩) :=
        List.getElem?_eq_getElem hmod
      show (match s.l_ch_s[(j + 1) % s.l_ch_s.length]? with
        | none => none
        | some c =>
          some
            ({ s with
                next_chain_index := (j + 1) % s.l_ch_s.length,
                iterations_since_last_change :=
                  s.iterations_since_last_change + 1,
                size_l_chain_init := s.l_ch_s.length },
              some c)) = _
      rw [hsc]
    exact ⟨_, _, hstep2, List.getElem_mem _, rfl, rfl, rfl⟩

theorem no_change_calls_terminate :
    ∀ (k : ℕ) (s : SystemStatus) (ci : Chain), ci ∈ s.l_ch_s →
      s.size_l_chain_init = s.l_ch_s.length →
      s.l_ch_s.length ≤ s.iterations_since_last_change + k + 1 →
      ∃ s'', no_change_calls k s ci = some (s'', none) := by
  intro k
  induction k with
  | zero =>
    intro s ci hci hsz hle
    obtain ⟨s', h⟩ := (find_support_chain_no_change_step s ci hci hsz).1 hle
    exact ⟨s', h⟩
  | succ k ih =>
    intro s ci hci hsz hle
    by_cases hcase : s.l_ch_s.length ≤ s.iterations_since_last_change + 1
    · obtain ⟨s', h⟩ := (find_support_chain_no_change_step s ci hci hsz).1 hcase
      refine ⟨s', ?_⟩
      unfold no_change_calls
      rw [h]
    · obtain ⟨s', c', h, hc', hl, hit, hszn⟩ :=
        (find_support_chain_no_change_step s ci hci hsz).2 (Nat.not_le.mp hcase)
      have hsz' : s'.size_l_chain_init = s'.l_ch_s.length := by rw [hszn, hl]
      have hle' : s'.l_ch_s.length ≤ s'.iterations_since_last_change + k + 1 := by
        rw [hl, hit]
        omega
      obtain ⟨s'', h''⟩ := ih s' c' hc' hsz' hle'
      refine ⟨s'', ?_⟩
      unfold no_change_calls
      rw [h]
      exact h''

/-- C6: `find_support_chain` signals pass completion as soon as the
no-change counter reaches the live chain count — whenever it returns a
support chain, the (updated) counter is still strictly below the chain
count — and from any state in which the previous iteration merged nothing,
at most `N` consecutive no-change calls (`N` the live chain count) reach the
terminal `none`. -/
theorem C6_support_chain_driver_terminates :
    (∀ (s : SystemStatus) (ch_i : Option Chain)
        (l_s_outward l_s_inward : List Chain) (s' : SystemStatus) (c : Chain),
        find_support_chain s ch_i l_s_outward l_s_inward = some (s', some c) →
        s'.iterations_since_last_change < s'.l_ch_s.length)
    ∧ (∀ (s : SystemStatus) (ci : Chain), ci ∈ s.l_ch_s →
        s.size_l_chain_init = s.l_ch_s.length →
        ∃ s'', no_change_calls (s.l_ch_s.length - 1) s ci
          = some (s'', none)) := by
  constructor
  · intro s ch_i outs ins s' c h
    unfold find_support_chain at h
    split_ifs at h with h0
    · exact absurd (congrArg Prod.snd (Option.some.inj h)) (by simp)
    · revert h
      cases hcur : find_support_chain_cursor s ch_i outs ins with
      | none => intro h; exact Option.noConfusion h
      | some s1 =>
        intro h
        exact find_support_chain_exit_some_chain h
  · intro s ci hci hsz
    refine no_change_calls_terminate (s.l_ch_s.length - 1) s ci hci hsz ?_
    have : s.l_ch_s.length ≠ 0 := by
      intro h0
      rw [List.length_eq_zero] at h0
      rw [h0] at hci
      exact List.not_mem_nil ci hci
    omega

/-- Witness for C6: with two live chains and no pending structural change,
the first call returns the next chain with the counter still below the chain
count, and the allowed two (`N = 2`) consecutive no-change calls reach the
terminal `none`. -/
theorem C6_support_chain_driver_terminates_witness :
    find_support_chain fstate (some mc0) [] [] = some (fstate1, some mc1)
      ∧ fstate1.iterations_since_last_change < fstate1.l_ch_s.length
      ∧ no_change_calls (fstate.l_ch_s.length - 1) fstate mc0
          = some (fstate2, none)
      ∧ (no_change_calls (fstate.l_ch_s.length - 1) fstate mc0).isSome
          = true := by
  refine ⟨rfl, ?_, rfl, ?_⟩
  · exact C6_support_chain_driver_terminates.1 fstate (some mc0) [] [] _ mc1 rfl
  · obtain ⟨s'', h⟩ := C6_support_chain_driver_terminates.2 fstate mc0
      (by decide) rfl
    rw [h]
    rfl

/-! ### C7 — the schedule deep-copies once, not before every pass -/

/-- Counterexample to C7: in the heap view of the schedule, with a per-pass
body that (like a real merge) appends an interpolated node to a chain object
in place, the chain object at address 3 — which is part of the chain list
pass 1 returned — has a different value after pass 2 than it had after
pass 1: pass 2 retroactively mutates the state pass 1 produced, because no
deep copy is taken between passes. -/
theorem C7_per_pass_copy_counterexample :
    3 ∈ (run_passes hpass 2 1 (copy_chains_and_nodes_heap hheap0 [0, 1]).1
          [3]).2
      ∧ ¬ (heapGet (run_passes hpass 2 2
            (copy_chains_and_nodes_heap hheap0 [0, 1]).1 [3]).1 3
          = heapGet (run_passes hpass 2 1
            (copy_chains_and_nodes_heap hheap0 [0, 1]).1 [3]).1 3) := by
  decide

/-- C7 (amended): `merge_chains` deep-copies the collection exactly once,
before the first pass.  (i) Every non-final pass `k + 1` receives, with no
copy interposed, exactly the heap and the address list pass `k` returned;
(ii) when the per-pass body allocates nothing, the final heap holds exactly
the original objects plus the single up-front copy of the input collection. -/
theorem C7_single_copy_before_first_pass :
    (∀ (passBody : ChainHeap → List ℕ → ChainHeap × List ℕ)
        (borderAddr k : ℕ) (h : ChainHeap) (cur : List ℕ),
        k ≠ connect_iterations - 1 →
        run_passes passBody borderAddr (k + 1) h cur
          = passBody (run_passes passBody borderAddr k h cur).1
              (run_passes passBody borderAddr k h cur).2)
    ∧ (∀ (passBody : ChainHeap → List ℕ → ChainHeap × List ℕ)
        (h0 : ChainHeap) (addrs0 : List ℕ),
        (∀ (h : ChainHeap) (a : List ℕ),
          ((passBody h a).1).store.length = h.store.length) →
        ∀ r : ChainHeap × List ℕ,
          merge_chains_heap passBody h0 addrs0 = some r →
          r.1.store.length = h0.store.length + addrs0.length) := by
  constructor
  · intro passBody borderAddr k h cur hk
    simp only [run_passes]
    rw [if_neg hk, if_neg hk]
  · intro passBody h0 addrs0 hpres r hr
    have hlen : ∀ (n : ℕ) (h : ChainHeap) (cur : List ℕ),
        ((run_passes passBody 0 n h cur).1).store.length = h.store.length
        ∧ ∀ b : ℕ, ((run_passes passBody b n h cur).1).store.length
          = h.store.length := by
      intro n
      induction n with
      | zero => intro h cur; exact ⟨rfl, fun _ => rfl⟩
      | succ n ih =>
        intro h cur
        constructor
        · unfold run_passes
          split_ifs with hb
          · rw [hpres, heapSet, List.length_set]
            exact ((ih h cur).2 0)
          · rw [hpres]
            exact ((ih h cur).2 0)
        · intro b
          unfold run_passes
          split_ifs with hb
          · rw [hpres, heapSet, List.length_set]
            exact ((ih h cur).2 b)
          · rw [hpres]
            exact ((ih h cur).2 b)
    simp only [merge_chains_heap] at hr
    rw [Option.map_eq_some'] at hr
    obtain ⟨borderAddr, -, hrun⟩ := hr
    rw [← hrun]
    have h1 := (hlen connect_iterations (copy_chains_and_nodes_heap h0
      addrs0).1 (((copy_chains_and_nodes_heap h0 addrs0).2).filter
        (fun a => (heapGet (copy_chains_and_nodes_heap h0 addrs0).1 a).typ
          ≠ TypeChains.border))).2 borderAddr
    rw [h1]
    unfold copy_chains_and_nodes_heap
    simp [List.length_append, List.length_map]

/-- Witness for the amended C7: with the concrete two-chain heap and the
node-appending pass body, pass 1 receives exactly pass 0's output, and the
final heap after the whole schedule holds exactly the two original objects
plus their single up-front copies (4 objects). -/
theorem C7_single_copy_before_first_pass_witness :
    run_passes hpass 2 1 (copy_chains_and_nodes_heap hheap0 [0, 1]).1 [3]
        = hpass (run_passes hpass 2 0
            (copy_chains_and_nodes_heap hheap0 [0, 1]).1 [3]).1
          (run_passes hpass 2 0
            (copy_chains_and_nodes_heap hheap0 [0, 1]).1 [3]).2
      ∧ (merge_chains_heap hpass hheap0 [0, 1]).map
          (fun r => r.1.store.length) = some 4 := by
  constructor
  · exact C7_single_copy_before_first_pass.1 hpass 2 0
      (copy_chains_and_nodes_heap hheap0 [0, 1]).1 [3] (by decide)
  · rcases hm : merge_chains_heap hpass hheap0 [0, 1] with - | r
    · have : (merge_chains_heap hpass hheap0 [0, 1]).isSome = true := by decide
      rw [hm] at this
      exact absurd this (by simp)
    · have h := C7_single_copy_before_first_pass.2 hpass hheap0 [0, 1]
        (by
          intro h a
          cases a with
          | nil => rfl
          | cons x t => simp [hpass, heapSet]) r hm
      show some r.1.store.length = some 4
      rw [h]
      rfl

/-! ### C1/C2 — bookkeeping of a merge

The merge step mutates the live chain list, the node list and the matrix in
sequence; the lemmas below track, through every step, the projection of a
chain to its identity and node list (the neighbour-pointer fields are the
only other mutable chain state and are irrelevant to both claims). -/

theorem map_eraseIdx (f : α → β) :
    ∀ (l : List α) (i : ℕ), (l.eraseIdx i).map f = (l.map f).eraseIdx i := by
  intro l
  induction l with
  | nil => intro i; rfl
  | cons a t ih =>
    intro i
    cases i with
    | zero => rfl
    | succ i => simp only [List.eraseIdx, List.map_cons, ih]

theorem eraseIdx_map_id_of_findIdx? {k : ℕ} :
    ∀ {l : List Chain} {p : ℕ},
      l.findIdx? (fun c => c.id = k) = some p →
      (l.eraseIdx p).map Chain.id = (l.map Chain.id).erase k := by
  intro l
  induction l with
  | nil => intro p hp; exact absurd hp (by simp)
  | cons a t ih =>
    intro p hp
    rw [List.findIdx?_cons] at hp
    by_cases ha : a.id = k
    · rw [if_pos (by simp [ha])] at hp
      obtain rfl := Option.some.inj hp
      simp only [List.eraseIdx, List.map_cons]
      rw [ha, List.erase_cons_head]
    · rw [if_neg (by simp [ha]), List.findIdx?_succ] at hp
      rw [Option.map_eq_some'] at hp
      obtain ⟨q, hq, rfl⟩ := hp
      simp only [List.eraseIdx, List.map_cons]
      rw [List.erase_cons_tail (by simp [ha]), ih hq]

theorem mem_eraseIdx_of_findIdx? {k : ℕ} {c : Chain} :
    ∀ {l : List Chain} {p : ℕ},
      l.findIdx? (fun c => c.id = k) = some p →
      c ∈ l → c.id ≠ k → c ∈ l.eraseIdx p := by
  intro l
  induction l with
  | nil => intro p hp; exact absurd hp (by simp)
  | cons a t ih =>
    intro p hp hc hck
    rw [List.findIdx?_cons] at hp
    by_cases ha : a.id = k
    · rw [if_pos (by simp [ha])] at hp
      obtain rfl := Option.some.inj hp
      rcases List.mem_cons.mp hc with rfl | hc'
      · exact absurd ha hck
      · exact hc'
    · rw [if_neg (by simp [ha]), List.findIdx?_succ] at hp
      rw [Option.map_eq_some'] at hp
      obtain ⟨q, hq, rfl⟩ := hp
      rcases List.mem_cons.mp hc with rfl | hc'
      · exact List.mem_cons_self _ _
      · exact List.mem_cons_of_mem a (ih hq hc' hck)

theorem update_chain_in_list_proj {l : List Chain} {cid : ℕ} {f : Chain → Chain}
    (hf : ∀ c, (f c).id = c.id ∧ (f c).l_nodes = c.l_nodes) :
    (update_chain_in_list l cid f).map (fun c => (c.id, c.l_nodes))
      = l.map (fun c => (c.id, c.l_nodes)) := by
  unfold update_chain_in_list
  rw [List.map_map]
  refine List.map_congr_left ?_
  intro c _
  by_cases hc : c.id = cid
  · simp only [Function.comp_apply, if_pos hc, (hf c).1, (hf c).2]
  · simp only [Function.comp_apply, if_neg hc]

theorem proj_transport {l1 l2 : List Chain} {c : Chain}
    (h : l1.map (fun c => (c.id, c.l_nodes)) = l2.map (fun c => (c.id, c.l_nodes)))
    (hc : c ∈ l1) : ∃ c' ∈ l2, c'.id = c.id ∧ c'.l_nodes = c.l_nodes := by
  have : (c.id, c.l_nodes) ∈ l2.map (fun c => (c.id, c.l_nodes)) := by
    rw [← h]
    exact List.mem_map_of_mem _ hc
  rw [List.mem_map] at this
  obtain ⟨c', hc', he⟩ := this
  exact ⟨c', hc', congrArg Prod.fst he, congrArg Prod.snd he⟩

theorem add_nodes_list_fst_id (c : Chain) (ns : List Node) :
    (c.add_nodes_list ns).1.id = c.id := rfl

theorem mem_add_nodes_list {c : Chain} {ns : List Node} {x : Node}
    (h : x ∈ c.l_nodes ++ ns) : x ∈ (c.add_nodes_list ns).1.l_nodes := by
  show x ∈ sortAscBy Node.angle (c.l_nodes ++ ns)
  rw [mem_sortAscBy]
  exact h

theorem merge_two_chains_facts (s : SystemStatus) (ch_j ch_k : Chain)
    (endpoint : EndPoints) (interpolated : List Node) :
    (merge_two_chains s ch_j ch_k endpoint interpolated).l_ch_s.map Chain.id
        = s.l_ch_s.map Chain.id
      ∧ (merge_two_chains s ch_j ch_k endpoint interpolated).M = s.M
      ∧ (merge_two_chains s ch_j ch_k endpoint interpolated).l_nodes_s
        = s.l_nodes_s.map (fun n =>
            if n.chain_id = ch_k.id then { n with chain_id := ch_j.id } else n) := by
  refine ⟨?_, rfl, rfl⟩
  unfold merge_two_chains move_nodes_from_one_chain_to_another
    update_chain_in_list
  simp only [List.map_map]
  refine List.map_congr_left ?_
  intro c _
  simp only [Function.comp_apply]
  split_ifs <;> rfl

/-- The chain object `ch_j` after `merge_two_chains`: it has absorbed the
interpolated nodes, then the (re-owned) nodes of `ch_k`. -/
theorem merge_two_chains_chj_mem (s : SystemStatus) (ch_j ch_k : Chain)
    (endpoint : EndPoints) (interpolated : List Node)
    (hj : ch_j ∈ s.l_ch_s) (hjk : ch_j.id ≠ ch_k.id) :
    (((ch_j.add_nodes_list interpolated).1).add_nodes_list
        (ch_k.l_nodes.map (fun n => { n with chain_id := ch_j.id }))).1
      ∈ (merge_two_chains s ch_j ch_k endpoint interpolated).l_ch_s := by
  unfold merge_two_chains move_nodes_from_one_chain_to_another
    update_chain_in_list
  simp only [List.map_map]
  have := List.mem_map_of_mem
    ((fun c =>
        if c.id = ch_k.id then
          { c with l_nodes := ch_k.l_nodes.map (fun n =>
              { n with chain_id := ((ch_j.add_nodes_list interpolated).1).id }) }
        else if c.id = ((ch_j.add_nodes_list interpolated).1).id then
          (c.add_nodes_list (ch_k.l_nodes.map (fun n =>
            { n with chain_id := ((ch_j.add_nodes_list interpolated).1).id }))).1
        else c)
      ∘ (fun c => if c.id = ch_j.id then (c.add_nodes_list interpolated).1
          else c)) hj
  rw [Function.comp_apply, if_pos rfl] at this
  rw [if_neg (by rw [add_nodes_list_fst_id]; exact hjk),
    if_pos (by rw [add_nodes_list_fst_id])] at this
  exact this

theorem update_intersection_matrix_in_radial_direction_facts
    {s : SystemStatus} {ch_j : Chain} {new_node : Node} {s' : SystemStatus}
    {chains : List Chain}
    (h : update_intersection_matrix_in_radial_direction s ch_j new_node
      = some (s', chains)) :
    s'.l_ch_s = s.l_ch_s ∧ s'.l_nodes_s = s.l_nodes_s ∧ s'.M.dim = s.M.dim
      ∧ (s.M.IsSymm → s'.M.IsSymm) ∧ (s.M.DiagOne → s'.M.DiagOne) := by
  simp only [update_intersection_matrix_in_radial_direction] at h
  split_ifs at h with hg
  obtain rfl : ({ s with M := ⟨s.M.dim, fun i j =>
      if (i = ch_j.id ∧ j ∈ (chains_id_over_radial_direction s new_node.angle).1)
          ∨ ((i ∈ (chains_id_over_radial_direction s new_node.angle).1)
              ∧ j = ch_j.id) then true
      else s.M.f i j⟩ } : SystemStatus) = s' :=
    congrArg Prod.fst (Option.some.inj h)
  refine ⟨rfl, rfl, rfl, ?_, ?_⟩
  · intro hsym i hi j hj
    show (if _ then true else s.M.f i j) = (if _ then true else s.M.f j i)
    by_cases hc : (i = ch_j.id
        ∧ j ∈ (chains_id_over_radial_direction s new_node.angle).1)
        ∨ ((i ∈ (chains_id_over_radial_direction s new_node.angle).1)
            ∧ j = ch_j.id)
    · rw [if_pos hc, if_pos (Or.symm (hc.imp And.symm And.symm))]
    · rw [if_neg hc, if_neg (fun hc' =>
        hc (Or.symm (hc'.imp And.symm And.symm)))]
      exact hsym i hi j hj
  · intro hdiag i hi
    show (if _ then true else s.M.f i i) = true
    split_ifs with hc
    · rfl
    · exact hdiag i hi

theorem redirect_inward_pointer_facts {s : SystemStatus}
    {chains : List Chain} {up : Option Node} {ch_j : Chain} {s' : SystemStatus}
    (h : redirect_inward_pointer s chains up ch_j = some s') :
    s'.l_ch_s.map (fun c => (c.id, c.l_nodes))
        = s.l_ch_s.map (fun c => (c.id, c.l_nodes))
      ∧ s'.M = s.M ∧ s'.l_nodes_s = s.l_nodes_s := by
  cases up with
  | none =>
    simp only [redirect_inward_pointer] at h
    obtain rfl := Option.some.inj h
    exact ⟨rfl, rfl, rfl⟩
  | some up_dot =>
    revert h
    cases hg : get_chain_from_list_by_id chains up_dot.chain_id with
    | none =>
      intro h
      simp only [redirect_inward_pointer, hg] at h
      exact Option.noConfusion h
    | some up_chain =>
      intro h
      simp only [redirect_inward_pointer, hg] at h
      split_ifs at h <;>
        (obtain rfl := Option.some.inj h
         refine ⟨?_, rfl, rfl⟩
         first
           | rfl
           | exact update_chain_in_list_proj (fun c => ⟨rfl, rfl⟩))

theorem redirect_outward_pointer_facts {s : SystemStatus}
    {chains : List Chain} {down : Option Node} {ch_j : Chain}
    {s' : SystemStatus}
    (h : redirect_outward_pointer s chains down ch_j = some s') :
    s'.l_ch_s.map (fun c => (c.id, c.l_nodes))
        = s.l_ch_s.map (fun c => (c.id, c.l_nodes))
      ∧ s'.M = s.M ∧ s'.l_nodes_s = s.l_nodes_s := by
  cases down with
  | none =>
    simp only [redirect_outward_pointer] at h
    obtain rfl := Option.some.inj h
    exact ⟨rfl, rfl, rfl⟩
  | some down_dot =>
    revert h
    cases hg : get_chain_from_list_by_id chains down_dot.chain_id with
    | none =>
      intro h
      simp only [redirect_outward_pointer, hg] at h
      exact Option.noConfusion h
    | some down_chain =>
      intro h
      simp only [redirect_outward_pointer, hg] at h
      split_ifs at h <;>
        (obtain rfl := Option.some.inj h
         refine ⟨?_, rfl, rfl⟩
         first
           | rfl
           | exact update_chain_in_list_proj (fun c => ⟨rfl, rfl⟩))

theorem update_visibility_chain_pointers_facts {s : SystemStatus}
    {chains : List Chain} {new_node : Node} {ch_j : Chain} {s' : SystemStatus}
    (h : update_visibility_chain_pointers_in_radial_direction s chains new_node
      ch_j = some s') :
    s'.l_ch_s.map (fun c => (c.id, c.l_nodes))
        = s.l_ch_s.map (fun c => (c.id, c.l_nodes))
      ∧ s'.M = s.M ∧ s'.l_nodes_s = s.l_nodes_s := by
  cases hidx : (sortAscBy Node.radial_distance
      ((chains.map (fun c =>
          c.l_nodes.filter (fun d => d.angle = new_node.angle))).flatten
        ++ [new_node])).findIdx? (fun d => d = new_node) with
  | none =>
    simp only [update_visibility_chain_pointers_in_radial_direction, hidx] at h
    exact Option.noConfusion h
  | some idx =>
    simp only [update_visibility_chain_pointers_in_radial_direction, hidx] at h
    cases hup : redirect_inward_pointer s chains
        (sortAscBy Node.radial_distance
          ((chains.map (fun c =>
              c.l_nodes.filter (fun d => d.angle = new_node.angle))).flatten
            ++ [new_node]))[idx + 1]? ch_j with
    | none =>
      simp only [hup] at h
      exact Option.noConfusion h
    | some s2 =>
      simp only [hup] at h
      obtain ⟨u1, u2, u3⟩ := redirect_inward_pointer_facts hup
      split_ifs at h with hpos
      · obtain ⟨d1, d2, d3⟩ := redirect_outward_pointer_facts h
        exact ⟨d1.trans u1, d2.trans u2, d3.trans u3⟩
      · obtain rfl := Option.some.inj h
        exact ⟨u1, u2, u3⟩

theorem update_chain_neighbourhood_facts :
    ∀ (ids : List ℕ) (s : SystemStatus),
      (update_chain_neighbourhood s ids).l_ch_s.map (fun c => (c.id, c.l_nodes))
          = s.l_ch_s.map (fun c => (c.id, c.l_nodes))
        ∧ (update_chain_neighbourhood s ids).M = s.M
        ∧ (update_chain_neighbourhood s ids).l_nodes_s = s.l_nodes_s := by
  intro ids
  induction ids with
  | nil => intro s; exact ⟨rfl, rfl, rfl⟩
  | cons i t ih =>
    intro s
    have hstep : ∀ s : SystemStatus,
        ((update_chain_neighbourhood s [i]).l_ch_s.map
            (fun c => (c.id, c.l_nodes))
          = s.l_ch_s.map (fun c => (c.id, c.l_nodes)))
        ∧ (update_chain_neighbourhood s [i]).M = s.M
        ∧ (update_chain_neighbourhood s [i]).l_nodes_s = s.l_nodes_s := by
      intro s
      cases hg : get_chain_from_list_by_id s.l_ch_s i with
      | none =>
        simp only [update_chain_neighbourhood, List.foldl_cons, List.foldl_nil,
          hg]
        refine ⟨?_, ?_, ?_⟩ <;> trivial
      | some chain_p =>
        simp only [update_chain_neighbourhood, List.foldl_cons, List.foldl_nil,
          hg]
        refine ⟨?_, by trivial, by trivial⟩
        refine Eq.trans (update_chain_in_list_proj ?_)
          (update_chain_in_list_proj ?_) <;> exact fun c => ⟨rfl, rfl⟩
    have hones : update_chain_neighbourhood s (i :: t)
        = update_chain_neighbourhood (update_chain_neighbourhood s [i]) t := by
      simp only [update_chain_neighbourhood, List.foldl_cons, List.foldl_nil]
    rw [hones]
    obtain ⟨h1, h2, h3⟩ := ih (update_chain_neighbourhood s [i])
    obtain ⟨g1, g2, g3⟩ := hstep s
    exact ⟨h1.trans g1, h2.trans g2, h3.trans g3⟩

theorem add_interpolated_nodes_loop_facts (ch_j : Chain) :
    ∀ (interpolated : List Node) (s s' : SystemStatus),
      add_interpolated_nodes_loop ch_j s interpolated = some s' →
      s'.l_ch_s.map (fun c => (c.id, c.l_nodes))
          = s.l_ch_s.map (fun c => (c.id, c.l_nodes))
        ∧ s'.l_nodes_s = s.l_nodes_s ++ interpolated
        ∧ s'.M.dim = s.M.dim
        ∧ (s.M.IsSymm → s'.M.IsSymm) ∧ (s.M.DiagOne → s'.M.DiagOne) := by
  intro interpolated
  induction interpolated with
  | nil =>
    intro s s' h
    obtain rfl := Option.some.inj h
    exact ⟨rfl, (List.append_nil _).symm, rfl, fun x => x, fun x => x⟩
  | cons n rest ih =>
    intro s s' h
    simp only [add_interpolated_nodes_loop] at h
    split_ifs at h with hmem
    cases hrad : update_intersection_matrix_in_radial_direction
        { s with l_nodes_s := s.l_nodes_s ++ [n] } ch_j n with
    | none =>
      simp only [hrad] at h
      exact Option.noConfusion h
    | some p =>
      obtain ⟨s2, chains2⟩ := p
      simp only [hrad] at h
      cases hvis : update_visibility_chain_pointers_in_radial_direction s2
          chains2 n ch_j with
      | none =>
        simp only [hvis] at h
        exact Option.noConfusion h
      | some s3 =>
        simp only [hvis] at h
        obtain ⟨r1, r2, r3, r4, r5⟩ :=
          update_intersection_matrix_in_radial_direction_facts hrad
        obtain ⟨v1, v2, v3⟩ := update_visibility_chain_pointers_facts hvis
        obtain ⟨i1, i2, i3, i4, i5⟩ := ih s3 s' h
        refine ⟨?_, ?_, ?_, ?_, ?_⟩
        · rw [i1, v1, r1]
        · rw [i2, v3, r2]
          show s.l_nodes_s ++ [n] ++ rest = s.l_nodes_s ++ n :: rest
          rw [List.append_assoc, List.singleton_append]
        · rw [i3, v2, r3]
        · intro hs
          refine i4 ?_
          rw [v2]
          exact r4 hs
        · intro hd
          refine i5 ?_
          rw [v2]
          exact r5 hd

theorem add_interpolated_nodes_to_system_facts {s : SystemStatus}
    {ch_j : Chain} {interpolated : List Node} {s' : SystemStatus}
    (h : add_interpolated_nodes_to_system s ch_j interpolated = some s') :
    s'.l_ch_s.map (fun c => (c.id, c.l_nodes))
        = s.l_ch_s.map (fun c => (c.id, c.l_nodes))
      ∧ s'.l_nodes_s = s.l_nodes_s ++ interpolated
      ∧ s'.M.dim = s.M.dim
      ∧ (s.M.IsSymm → s'.M.IsSymm) ∧ (s.M.DiagOne → s'.M.DiagOne) := by
  unfold add_interpolated_nodes_to_system at h
  rw [Option.map_eq_some'] at h
  obtain ⟨s3, hloop, rfl⟩ := h
  obtain ⟨l1, l2, l3, l4, l5⟩ :=
    add_interpolated_nodes_loop_facts ch_j interpolated s s3 hloop
  obtain ⟨n1, n2, n3⟩ := update_chain_neighbourhood_facts [ch_j.id] s3
  refine ⟨n1.trans l1, n3.trans l2, ?_, ?_, ?_⟩
  · rw [show (update_chain_neighbourhood s3 [ch_j.id]).M = s3.M from n2, l3]
  · intro hs
    rw [show (update_chain_neighbourhood s3 [ch_j.id]).M = s3.M from n2]
    exact l4 hs
  · intro hd
    rw [show (update_chain_neighbourhood s3 [ch_j.id]).M = s3.M from n2]
    exact l5 hd

theorem update_chain_after_connect_facts (s : SystemStatus) (ch_j ch_k : Chain) :
    (update_chain_after_connect s ch_j ch_k).l_ch_s.map
        (fun c => (c.id, c.l_nodes))
        = s.l_ch_s.map (fun c => (c.id, c.l_nodes))
      ∧ (update_chain_after_connect s ch_j ch_k).M = s.M
      ∧ (update_chain_after_connect s ch_j ch_k).l_nodes_s = s.l_nodes_s := by
  refine ⟨?_, rfl, rfl⟩
  show (s.l_ch_s.map _).map _ = _
  rw [List.map_map]
  refine List.map_congr_left ?_
  intro c _
  simp only [Function.comp_apply]
  split_ifs <;> rfl

theorem update_intersection_matrix_facts {s : SystemStatus} {ch_j ch_k : Chain}
    {s' : SystemStatus} (h : update_intersection_matrix s ch_j ch_k = some s') :
    s'.l_ch_s = s.l_ch_s ∧ s'.l_nodes_s = s.l_nodes_s
      ∧ s'.M.dim = s.M.dim - 1
      ∧ (s.M.IsSymm → s'.M.IsSymm)
      ∧ (s.M.DiagOne → s'.M.DiagOne) := by
  simp only [update_intersection_matrix] at h
  split_ifs at h with hg
  obtain rfl := Option.some.inj h
  refine ⟨rfl, rfl, rfl, ?_, ?_⟩
  · intro hsym i hi j hj
    have hi' : i < s.M.dim - 1 := hi
    have hj' : j < s.M.dim - 1 := hj
    have hski : skipIdx ch_k.id i < s.M.dim := by
      unfold skipIdx
      split_ifs with hik
      · exact lt_of_lt_of_le hik (Nat.le_of_lt hg.2)
      · omega
    have hskj : skipIdx ch_k.id j < s.M.dim := by
      unfold skipIdx
      split_ifs with hjk
      · exact lt_of_lt_of_le hjk (Nat.le_of_lt hg.2)
      · omega
    show (if skipIdx ch_k.id i = ch_j.id then
        s.M.f ch_j.id (skipIdx ch_k.id j) || s.M.f ch_k.id (skipIdx ch_k.id j)
      else if skipIdx ch_k.id j = ch_j.id then
        s.M.f ch_j.id (skipIdx ch_k.id i) || s.M.f ch_k.id (skipIdx ch_k.id i)
      else s.M.f (skipIdx ch_k.id i) (skipIdx ch_k.id j))
      = (if skipIdx ch_k.id j = ch_j.id then
        s.M.f ch_j.id (skipIdx ch_k.id i) || s.M.f ch_k.id (skipIdx ch_k.id i)
      else if skipIdx ch_k.id i = ch_j.id then
        s.M.f ch_j.id (skipIdx ch_k.id j) || s.M.f ch_k.id (skipIdx ch_k.id j)
      else s.M.f (skipIdx ch_k.id j) (skipIdx ch_k.id i))
    by_cases h1 : skipIdx ch_k.id i = ch_j.id
    · by_cases h2 : skipIdx ch_k.id j = ch_j.id
      · rw [if_pos h1, if_pos h2, h1, h2]
      · rw [if_pos h1, if_neg h2, if_pos h1]
    · by_cases h2 : skipIdx ch_k.id j = ch_j.id
      · rw [if_neg h1, if_pos h2, if_pos h2]
      · rw [if_neg h1, if_neg h2, if_neg h2, if_neg h1]
        exact hsym _ hski _ hskj
  · intro hdiag i hi
    have hi' : i < s.M.dim - 1 := hi
    have hski : skipIdx ch_k.id i < s.M.dim := by
      unfold skipIdx
      split_ifs with hik
      · exact lt_of_lt_of_le hik (Nat.le_of_lt hg.2)
      · omega
    show (if skipIdx ch_k.id i = ch_j.id then
        s.M.f ch_j.id (skipIdx ch_k.id i) || s.M.f ch_k.id (skipIdx ch_k.id i)
      else if skipIdx ch_k.id i = ch_j.id then
        s.M.f ch_j.id (skipIdx ch_k.id i) || s.M.f ch_k.id (skipIdx ch_k.id i)
      else s.M.f (skipIdx ch_k.id i) (skipIdx ch_k.id i)) = true
    by_cases h1 : skipIdx ch_k.id i = ch_j.id
    · rw [if_pos h1, h1]
      rw [hdiag ch_j.id hg.1]
      rfl
    · rw [if_neg h1, if_neg h1]
      exact hdiag _ hski

theorem delete_closest_chain_facts {s : SystemStatus} {ch_k : Chain}
    {cands : List ℕ} {s' : SystemStatus} {cands' : List ℕ}
    (h : delete_closest_chain s ch_k cands = some (s', cands')) :
    ∃ p, s.l_ch_s.findIdx? (fun c => c.id = ch_k.id) = some p
      ∧ s'.l_ch_s = s.l_ch_s.eraseIdx p ∧ s'.l_nodes_s = s.l_nodes_s
      ∧ s'.M = s.M := by
  unfold delete_closest_chain at h
  revert h
  cases hp : s.l_ch_s.findIdx? (fun c => c.id = ch_k.id) with
  | none => intro h; exact Option.noConfusion h
  | some p =>
    intro h
    revert h
    cases hq : cands.findIdx? (fun cid => cid = ch_k.id) with
    | none => intro h; exact Option.noConfusion h
    | some q =>
      intro h
      have hfst : ({ s with l_ch_s := s.l_ch_s.eraseIdx p } : SystemStatus)
          = s' := congrArg Prod.fst (Option.some.inj h)
      exact ⟨p, rfl, by rw [← hfst], by rw [← hfst], by rw [← hfst]⟩

theorem update_chains_ids_facts (s : SystemStatus) (ch_k : Chain) :
    (update_chains_ids s ch_k).l_ch_s.map Chain.id
        = (s.l_ch_s.map Chain.id).map
            (fun i => if ch_k.id < i then i - 1 else i)
      ∧ (update_chains_ids s ch_k).M = s.M := by
  refine ⟨?_, rfl⟩
  show (s.l_ch_s.map _).map _ = _
  rw [List.map_map, List.map_map]
  refine List.map_congr_left ?_
  intro c _
  simp only [Function.comp_apply]
  split_ifs <;> rfl

theorem idmap_of_projmap {l1 l2 : List Chain}
    (h : l1.map (fun c => (c.id, c.l_nodes))
      = l2.map (fun c => (c.id, c.l_nodes))) :
    l1.map Chain.id = l2.map Chain.id := by
  have h2 := congrArg (List.map Prod.fst) h
  rw [List.map_map, List.map_map] at h2
  exact h2

/-- Bookkeeping facts of `update_chain_list`: the surviving ids are the old
ids with the deleted id erased and the larger ids shifted down by one; the
node store is the old store plus the interpolated nodes, renumbered; the
matrix shrinks by one and keeps symmetry and unit diagonal. -/
theorem update_chain_list_facts {s : SystemStatus} {ch_j ch_k : Chain}
    {cands : List ℕ} {interpolated : List Node} {s' : SystemStatus}
    {cands' : List ℕ}
    (h : update_chain_list s ch_j ch_k cands interpolated = some (s', cands')) :
    s'.l_ch_s.map Chain.id
        = ((s.l_ch_s.map Chain.id).erase ch_k.id).map
            (fun i => if ch_k.id < i then i - 1 else i)
      ∧ s'.l_nodes_s = (s.l_nodes_s ++ interpolated).map (fun n =>
          if ch_k.id < n.chain_id then { n with chain_id := n.chain_id - 1 }
          else n)
      ∧ s'.M.dim = s.M.dim - 1
      ∧ (s.M.IsSymm → s'.M.IsSymm) ∧ (s.M.DiagOne → s'.M.DiagOne) := by
  simp only [update_chain_list] at h
  cases hadd : add_interpolated_nodes_to_system s ch_j interpolated with
  | none =>
    simp only [hadd] at h
    exact Option.noConfusion h
  | some s2 =>
    simp only [hadd] at h
    cases hmat : update_intersection_matrix
        (update_chain_after_connect s2 ch_j ch_k) ch_j ch_k with
    | none =>
      simp only [hmat] at h
      exact Option.noConfusion h
    | some s4 =>
      simp only [hmat] at h
      cases hdel : delete_closest_chain s4 ch_k cands with
      | none =>
        simp only [hdel] at h
        exact Option.noConfusion h
      | some q =>
        obtain ⟨s5, cands2⟩ := q
        simp only [hdel] at h
        have hst : update_chains_ids s5 ch_k = s' :=
          congrArg Prod.fst (Option.some.inj h)
        obtain ⟨a1, a2, a3, a4, a5⟩ :=
          add_interpolated_nodes_to_system_facts hadd
        obtain ⟨c1, c2, c3⟩ := update_chain_after_connect_facts s2 ch_j ch_k
        obtain ⟨m1, m2, m3, m4, m5⟩ := update_intersection_matrix_facts hmat
        obtain ⟨p, hp, d1, d2, d3⟩ := delete_closest_chain_facts hdel
        obtain ⟨u1, u2⟩ := update_chains_ids_facts s5 ch_k
        have hid4 : s4.l_ch_s.map Chain.id = s.l_ch_s.map Chain.id := by
          rw [m1]
          exact (idmap_of_projmap c1).trans (idmap_of_projmap a1)
        subst hst
        refine ⟨?_, ?_, ?_, ?_, ?_⟩
        · rw [u1, d1, eraseIdx_map_id_of_findIdx? hp, hid4]
        · show s5.l_nodes_s.map (fun n =>
              if ch_k.id < n.chain_id then { n with chain_id := n.chain_id - 1 }
              else n) = _
          rw [d2, m2, c3, a2]
        · show s5.M.dim = s.M.dim - 1
          rw [d3, m3, c2, a3]
        · intro hs
          show s5.M.IsSymm
          rw [d3]
          refine m4 ?_
          rw [c2]
          exact a4 hs
        · intro hd
          show s5.M.DiagOne
          rw [d3]
          refine m5 ?_
          rw [c2]
          exact a5 hd

/-- Bookkeeping facts of the full merge step (merge_chains.py:373 to 375):
`merge_two_chains` composed with `update_chain_list`. -/
theorem merge_and_update_facts {s : SystemStatus} {ch_j ch_k : Chain}
    {endpoint : EndPoints} {cands : List ℕ} {interpolated : List Node}
    {s' : SystemStatus} {cands' : List ℕ}
    (h : merge_and_update s ch_j ch_k endpoint cands interpolated
      = some (s', cands')) :
    s'.l_ch_s.map Chain.id
        = ((s.l_ch_s.map Chain.id).erase ch_k.id).map
            (fun i => if ch_k.id < i then i - 1 else i)
      ∧ s'.l_nodes_s = ((s.l_nodes_s.map (fun n =>
            if n.chain_id = ch_k.id then { n with chain_id := ch_j.id } else n))
          ++ interpolated).map (fun n =>
            if ch_k.id < n.chain_id then { n with chain_id := n.chain_id - 1 }
            else n)
      ∧ s'.M.dim = s.M.dim - 1
      ∧ (s.M.IsSymm → s'.M.IsSymm) ∧ (s.M.DiagOne → s'.M.DiagOne) := by
  simp only [merge_and_update] at h
  obtain ⟨f1, f2, f3, f4, f5⟩ := update_chain_list_facts h
  obtain ⟨g1, g2, g3⟩ := merge_two_chains_facts s ch_j ch_k endpoint interpolated
  refine ⟨?_, ?_, ?_, ?_, ?_⟩
  · rw [f1, g1]
  · rw [f2, g3]
  · rw [f3, g2]
  · intro hs
    refine f4 ?_
    rw [g2]
    exact hs
  · intro hd
    refine f5 ?_
    rw [g2]
    exact hd

/-- C1: after merging `ch_k` into `ch_j` (`merge_two_chains` followed by
`update_chain_list`), the deleted chain's id is erased from the live id
list with every larger id shifted down by exactly one, every node formerly
owned by `ch_k` now carries `ch_j`'s (renumbered) id, and the live ids stay
pairwise distinct. -/
theorem C1_merge_bookkeeping {s : SystemStatus} {ch_j ch_k : Chain}
    {endpoint : EndPoints} {cands : List ℕ} {interpolated : List Node}
    {s' : SystemStatus} {cands' : List ℕ}
    (hnodup : (s.l_ch_s.map Chain.id).Nodup)
    (hrun : merge_and_update s ch_j ch_k endpoint cands interpolated
      = some (s', cands')) :
    s'.l_ch_s.map Chain.id
        = ((s.l_ch_s.map Chain.id).erase ch_k.id).map
            (fun i => if ch_k.id < i then i - 1 else i)
      ∧ (∀ n ∈ s.l_nodes_s, n.chain_id = ch_k.id →
          ({ n with chain_id :=
              if ch_k.id < ch_j.id then ch_j.id - 1 else ch_j.id } : Node)
            ∈ s'.l_nodes_s)
      ∧ (s'.l_ch_s.map Chain.id).Nodup := by
  obtain ⟨f1, f2, f3, f4, f5⟩ := merge_and_update_facts hrun
  refine ⟨f1, ?_, ?_⟩
  · intro n hn hnk
    rw [f2]
    have h1 : ({ n with chain_id := ch_j.id } : Node)
        ∈ (s.l_nodes_s.map (fun n =>
            if n.chain_id = ch_k.id then { n with chain_id := ch_j.id } else n))
          ++ interpolated := by
      refine List.mem_append_left _ (List.mem_map.mpr ⟨n, hn, ?_⟩)
      show (if n.chain_id = ch_k.id then ({ n with chain_id := ch_j.id } : Node)
          else n) = _
      rw [if_pos hnk]
    refine List.mem_map.mpr ⟨{ n with chain_id := ch_j.id }, h1, ?_⟩
    show (if ch_k.id < ch_j.id then ({ n with chain_id := ch_j.id - 1 } : Node)
        else { n with chain_id := ch_j.id }) = _
    by_cases hlt : ch_k.id < ch_j.id
    · rw [if_pos hlt, if_pos hlt]
    · rw [if_neg hlt, if_neg hlt]
  · rw [f1]
    refine List.Nodup.map_on ?_ (hnodup.erase ch_k.id)
    intro a ha b hb hab
    obtain ⟨ha1, _⟩ := (List.Nodup.mem_erase_iff hnodup).1 ha
    obtain ⟨hb1, _⟩ := (List.Nodup.mem_erase_iff hnodup).1 hb
    split_ifs at hab <;> omega

theorem C1_merge_bookkeeping_witness :
    (mstate.l_ch_s.map Chain.id).Nodup
    ∧ (mres.1.l_ch_s.map Chain.id
        = ((mstate.l_ch_s.map Chain.id).erase mc1.id).map
            (fun i => if mc1.id < i then i - 1 else i)
      ∧ (∀ n ∈ mstate.l_nodes_s, n.chain_id = mc1.id →
          ({ n with chain_id :=
              if mc1.id < mc0.id then mc0.id - 1 else mc0.id } : Node)
            ∈ mres.1.l_nodes_s)
      ∧ (mres.1.l_ch_s.map Chain.id).Nodup) :=
  ⟨by decide,
    @C1_merge_bookkeeping mstate mc0 mc1 EndPoints.B [1, 2] [] mres.1 mres.2
      (by decide) (by rfl)⟩

theorem le_foldl_max (l : List ℕ) : ∀ b : ℕ, b ≤ l.foldl max b := by
  induction l with
  | nil => intro b; exact le_refl b
  | cons a t ih => intro b; exact le_trans (le_max_left b a) (ih (max b a))

theorem mem_le_foldl_max {x : ℕ} :
    ∀ {l : List ℕ} (b : ℕ), x ∈ l → x ≤ l.foldl max b := by
  intro l
  induction l with
  | nil => intro b hx; exact absurd hx (List.not_mem_nil x)
  | cons a t ih =>
    intro b hx
    rcases List.mem_cons.1 hx with rfl | hx
    · exact le_trans (le_max_right b x) (le_foldl_max t (max b x))
    · exact ih (max b a) hx

theorem foldl_max_lt : ∀ (l : List ℕ) (b c : ℕ), b < c → (∀ x ∈ l, x < c) →
    l.foldl max b < c := by
  intro l
  induction l with
  | nil => intro b c hb _; exact hb
  | cons a t ih =>
    intro b c hb h
    exact ih (max b a) c (max_lt hb (h a (List.mem_cons_self a t)))
      (fun x hx => h x (List.mem_cons_of_mem a hx))

/-- C2: the intersection matrix invariants.  First part: the matrix built by
`compute_intersection_matrix` is symmetric, has unit diagonal, and (when the
node chain-ids are bounded by the chain count and attain it) dimension equal
to the number of live chains.  Second part: a completed merge step preserves
symmetry and unit diagonal, and keeps the dimension equal to the number of
live chains. -/
theorem C2_matrix_invariants :
    (∀ (nodes : List Node) (Nr count : ℕ) (M0 : IntersectionMatrix),
        compute_intersection_matrix nodes Nr = some M0 →
        (∀ n ∈ nodes, n.chain_id < count) →
        (∃ n ∈ nodes, n.chain_id + 1 = count) →
        M0.IsSymm ∧ M0.DiagOne ∧ M0.dim = count)
    ∧ (∀ (s : SystemStatus) (ch_j ch_k : Chain) (endpoint : EndPoints)
        (cands : List ℕ) (interpolated : List Node) (s' : SystemStatus)
        (cands' : List ℕ),
        merge_and_update s ch_j ch_k endpoint cands interpolated
          = some (s', cands') →
        ch_k.id ∈ s.l_ch_s.map Chain.id →
        s.M.IsSymm → s.M.DiagOne → s.M.dim = s.l_ch_s.length →
        s'.M.IsSymm ∧ s'.M.DiagOne ∧ s'.M.dim = s'.l_ch_s.length) := by
  constructor
  · intro nodes Nr count M0 hM hlt hex
    cases nodes with
    | nil =>
      simp only [compute_intersection_matrix] at hM
      exact Option.noConfusion hM
    | cons n₀ rest =>
      simp only [compute_intersection_matrix] at hM
      obtain rfl := Option.some.inj hM
      refine ⟨?_, ?_, ?_⟩
      · intro i hi j hj
        show (i == j || (gridAngles Nr).any (fun a =>
            (n₀ :: rest).any (fun n => n.chain_id == i && n.angle == a) &&
            (n₀ :: rest).any (fun n => n.chain_id == j && n.angle == a)))
          = (j == i || (gridAngles Nr).any (fun a =>
            (n₀ :: rest).any (fun n => n.chain_id == j && n.angle == a) &&
            (n₀ :: rest).any (fun n => n.chain_id == i && n.angle == a)))
        have hbeq : (i == j) = (j == i) := by
          by_cases hij : i = j
          · subst hij; rfl
          · have h1 : (i == j) = false := by
              simp [hij]
            have h2 : (j == i) = false := by
              simp [Ne.symm hij]
            rw [h1, h2]
        rw [hbeq]
        congr 1
        exact congrArg _ (funext fun a => Bool.and_comm _ _)
      · intro i hi
        show (i == i || _) = true
        simp
      · show ((n₀ :: rest).map Node.chain_id).foldl max 0 + 1 = count
        obtain ⟨n, hn, hcn⟩ := hex
        have hub : ((n₀ :: rest).map Node.chain_id).foldl max 0 < count := by
          refine foldl_max_lt _ 0 count ?_ ?_
          · omega
          · intro x hx
            obtain ⟨m, hm, rfl⟩ := List.mem_map.1 hx
            exact hlt m hm
        have hlb : n.chain_id ≤ ((n₀ :: rest).map Node.chain_id).foldl max 0 :=
          mem_le_foldl_max 0 (List.mem_map_of_mem Node.chain_id hn)
        omega
  · intro s ch_j ch_k endpoint cands interpolated s' cands' hrun hmem hsym
      hdiag hdim
    obtain ⟨f1, f2, f3, f4, f5⟩ := merge_and_update_facts hrun
    refine ⟨f4 hsym, f5 hdiag, ?_⟩
    have h1 := congrArg List.length f1
    simp only [List.length_map, List.length_erase_of_mem hmem] at h1
    rw [f3, hdim, h1]

theorem C2_matrix_invariants_witness :
    (compute_intersection_matrix mstate.l_nodes_s 4 = some mM0
      ∧ (∀ n ∈ mstate.l_nodes_s, n.chain_id < 3)
      ∧ (∃ n ∈ mstate.l_nodes_s, n.chain_id + 1 = 3)
      ∧ (mM0.IsSymm ∧ mM0.DiagOne ∧ mM0.dim = 3))
    ∧ (mc1.id ∈ mstate.l_ch_s.map Chain.id
      ∧ mstate.M.IsSymm ∧ mstate.M.DiagOne
      ∧ mstate.M.dim = mstate.l_ch_s.length
      ∧ (mres.1.M.IsSymm ∧ mres.1.M.DiagOne
          ∧ mres.1.M.dim = mres.1.l_ch_s.length)) :=
  ⟨⟨rfl, by decide, by decide,
      C2_matrix_invariants.1 mstate.l_nodes_s 4 3 mM0 rfl (by decide)
        (by decide)⟩,
    ⟨by decide, by decide, by decide, by decide,
      C2_matrix_invariants.2 mstate mc0 mc1 EndPoints.B [1, 2] [] mres.1
        mres.2 (by rfl) (by decide) (by decide) (by decide) (by decide)⟩⟩

end CSTRD
